import Mathlib

/-!
Verification development for the drug-system clinical message parsing and
normalization engine: a shallow embedding of the HL7 parser
(`backstage/data_converter/services/hl7_parser.py`) and the XML parser
(`backstage/data_converter/services/xml_parser.py`), with theorems about the
tokenizer, the message-model builder, the clinical extractors and the
validate/parse entry points.

All recursive functions are written with structural recursion (where needed, on
an explicit fuel argument that strictly dominates the required recursion depth)
so that every definition evaluates by kernel reduction on concrete inputs.
-/

/-! ## Generic helpers: Python-style string and dict primitives -/

/-- Association-list lookup, modelling `dict[k]` access / `dict.get(k)`.
The Python dicts built by the parsers are insertion-ordered with unique keys;
lookup returns the first binding. -/
def plookup {κ α : Type} [DecidableEq κ] : List (κ × α) → κ → Option α
  | [], _ => none
  | (k', v) :: t, k => if k' = k then some v else plookup t k

/-- Models Python `k in dict`. -/
def hasKey {κ α : Type} [DecidableEq κ] (m : List (κ × α)) (k : κ) : Bool :=
  (plookup m k).isSome

/-- Splits a character list on a single delimiter character, modelling Python
`str.split(sep)` for a one-character separator: always returns at least one
(possibly empty) piece, with empty pieces kept. -/
def splitListOn (sep : Char) : List Char → List (List Char)
  | [] => [[]]
  | c :: rest =>
    match splitListOn sep rest with
    | [] => if c = sep then [[], []] else [[c]]
    | h :: t => if c = sep then [] :: h :: t else (c :: h) :: t

/-- Python `s.split(sep)` for a one-character separator, on strings. -/
def pySplitChar (sep : Char) (s : String) : List String :=
  (splitListOn sep s.data).map String.mk

/-- Splits a character list at every character satisfying `p` (the delimiter
characters are dropped), modelling the character scan of `_split_segments`
over CR/LF boundaries. -/
def splitListOnPred (p : Char → Bool) : List Char → List (List Char)
  | [] => [[]]
  | c :: rest =>
    match splitListOnPred p rest with
    | [] => if p c then [[], []] else [[c]]
    | h :: t => if p c then [] :: h :: t else (c :: h) :: t

/-- Left-and-right whitespace trim on character lists, modelling Python
`str.strip()`. -/
def trimL (l : List Char) : List Char :=
  (((l.dropWhile Char.isWhitespace).reverse.dropWhile Char.isWhitespace).reverse)

/-- Python `str.strip()` on strings. -/
def pyStrip (s : String) : String := String.mk (trimL s.data)

/-- Models Python `c in s` for a character. -/
def containsChar (s : String) (c : Char) : Bool := s.data.any (· = c)

/-- Models Python `needle in hay` for strings (substring containment). -/
def containsSub (hay needle : List Char) : Bool :=
  needle.isPrefixOf hay ||
    match hay with
    | [] => false
    | _ :: t => containsSub t needle

/-- ASCII lower-casing of one character (ASCII suffices for the keyword scan
the XML extractor performs). -/
def lowerChar (c : Char) : Char :=
  if 'A' ≤ c ∧ c ≤ 'Z' then Char.ofNat (c.toNat + 32) else c

/-- ASCII `str.lower()`. -/
def pyLower (s : String) : String := String.mk (s.data.map lowerChar)

/-- Digit-run accumulator for the integer literal grammar of Python `int`,
allowing single underscores between digits. -/
def pyIntDigitsAux : List Char → Nat → Option Nat
  | [], acc => some acc
  | '_' :: c :: rest, acc =>
    if c.isDigit then pyIntDigitsAux rest (acc * 10 + (c.toNat - 48)) else none
  | ['_'], _ => none
  | c :: rest, acc =>
    if c.isDigit then pyIntDigitsAux rest (acc * 10 + (c.toNat - 48)) else none

/-- Nonempty digit run (first char must be a digit). -/
def pyIntDigits : List Char → Option Nat
  | [] => none
  | c :: rest => if c.isDigit then pyIntDigitsAux rest (c.toNat - 48) else none

/-- Models Python `int(s)` on a decimal string: surrounding whitespace stripped,
optional sign, then digits (single underscores between digits allowed);
`none` models the raised `ValueError`. -/
def pythonInt (s : String) : Option Int :=
  match trimL s.data with
  | '+' :: rest => (pyIntDigits rest).map Int.ofNat
  | '-' :: rest => (pyIntDigits rest).map (fun n => -(n : Int))
  | rest => (pyIntDigits rest).map Int.ofNat

/-- Decimal value of a digit list (used after an all-digits check). -/
def natOfDigits (l : List Char) : Nat :=
  l.foldl (fun acc c => acc * 10 + (c.toNat - 48)) 0

/-- Two-digit zero padding, modelling the `f"{n:02d}"` format. -/
def pad2 (n : Nat) : String :=
  if n < 10 then "0" ++ toString n else toString n

/-! ## HL7 data model (`hl7_parser.py`) -/

/-- An HL7 component as produced by `HL7Parser._parse_component`: a primitive
string, or the sub-component list obtained by splitting on `&`. -/
inductive Component where
  | prim (value : String)
  | comp (subcomponents : List String)
deriving DecidableEq, Repr

/-- An HL7 field as produced by `HL7Parser._parse_field`: a primitive string, or
the component list obtained by splitting on `^`. -/
inductive HField where
  | prim (value : String)
  | comp (components : List Component)
deriving DecidableEq, Repr

/-- `HL7Parser._parse_segment` output: segment name plus a mapping from 1-based
field index to field value; empty raw fields are skipped. -/
structure ParsedSegment where
  segment_name : String
  fields : List (Nat × HField)
deriving DecidableEq, Repr

/-- Value of a segment-name key in the parsed message: a bare segment, or the
ordered list produced when the same name repeats. -/
inductive SegEntry where
  | one (s : ParsedSegment)
  | many (l : List ParsedSegment)
deriving DecidableEq, Repr

/-- MSH-derived message type information. -/
structure MessageType where
  message_type : String
  trigger_event : String
deriving DecidableEq, Repr

/-- `HL7Parser.parse` output. -/
structure ParsedMessage where
  message_type : MessageType
  segments : List (String × SegEntry)
deriving DecidableEq, Repr

/-- `HL7Parser._parse_component`. -/
def parseComponent (s : String) : Component :=
  if containsChar s '&' then .comp (pySplitChar '&' s) else .prim s

/-- `HL7Parser._parse_field`. -/
def parseField (s : String) : HField :=
  if containsChar s '^' then .comp ((pySplitChar '^' s).map parseComponent)
  else .prim s

/-- `HL7Parser._parse_segment`: split on `|`, element 0 is the segment name,
non-empty elements 1..N become 1-based field entries. -/
def parseSegment (segment : String) : ParsedSegment :=
  let fs := pySplitChar '|' segment
  { segment_name := fs.headD "",
    fields := (fs.drop 1).enum.filterMap fun p =>
      if p.2 ≠ "" then some (p.1 + 1, parseField p.2) else none }

/-- The `line[:3]` key used by `HL7Parser.parse` when inserting a decomposed
segment into the segments mapping. -/
def segKey (line : String) : String := String.mk (line.data.take 3)

/-- One insertion step of `HL7Parser.parse`: a fresh name maps to the bare
segment; on a repeat the existing value is promoted to a list (if needed) and
the new segment is appended. -/
def segInsert (m : List (String × SegEntry)) (k : String) (v : ParsedSegment) :
    List (String × SegEntry) :=
  if hasKey m k then
    m.map fun p =>
      if p.1 = k then
        (p.1, match p.2 with
          | .one s => SegEntry.many [s, v]
          | .many l => SegEntry.many (l ++ [v]))
      else p
  else m ++ [(k, .one v)]

/-- The segments-mapping construction loop of `HL7Parser.parse`. -/
def buildSegments (lines : List String) : List (String × SegEntry) :=
  lines.foldl (fun m line => segInsert m (segKey line) (parseSegment line)) []

/-- `HL7Parser._extract_message_type`. -/
def extractMessageType (msh : String) : MessageType :=
  let fields := pySplitChar '|' msh
  if fields.length > 8 then
    let f := fields.getD 8 ""
    if containsChar f '^' then
      let comps := pySplitChar '^' f
      { message_type := comps.getD 0 "", trigger_event := comps.getD 1 "" }
    else { message_type := f, trigger_event := "" }
  else { message_type := "", trigger_event := "" }

/-! ## Segment tokenizer (`HL7Parser._split_segments`) -/

/-- The `|XXX|` boundary pattern of the single-line tokenizer (regex
`\|([A-Z]{3})\|`): a pipe, three uppercase ASCII letters, a pipe, starting at
index `i`. -/
def pipePatAt (cs : List Char) (i : Nat) : Bool :=
  match cs.drop i with
  | a :: b :: c :: d :: e :: _ =>
    a = '|' && ('A' ≤ b && b ≤ 'Z') && ('A' ≤ c && c ≤ 'Z') &&
      ('A' ≤ d && d ≤ 'Z') && e = '|'
  | _ => false

/-- Non-overlapping left-to-right scan for `|XXX|` matches, modelling
`re.finditer`: after a match at `i` the search resumes at `i + 5`.  Structural
on fuel; `findMatches` supplies fuel exceeding the scan length. -/
def findMatchesAux (cs : List Char) : Nat → Nat → List Nat
  | 0, _ => []
  | fuel + 1, p =>
    if pipePatAt cs p then p :: findMatchesAux cs fuel (p + 5)
    else if p < cs.length then findMatchesAux cs fuel (p + 1)
    else []

/-- All `|XXX|` match start positions in left-to-right, non-overlapping order. -/
def findMatches (cs : List Char) : List Nat :=
  findMatchesAux cs (cs.length + 1) 0

/-- Leftmost occurrence of `|XXX|` at or after position `p`, modelling a plain
`re.search(r'\|[A-Z]{3}\|', ...)` (every position is tried). -/
def firstPipePatAux (cs : List Char) : Nat → Nat → Option Nat
  | 0, _ => none
  | fuel + 1, p =>
    if pipePatAt cs p then some p
    else if p < cs.length then firstPipePatAux cs fuel (p + 1)
    else none

/-- Leftmost `|XXX|` occurrence in `cs`. -/
def firstPipePat (cs : List Char) : Option Nat :=
  firstPipePatAux cs (cs.length + 1) 0

/-- The literal `|PID|` pattern at index `i`. -/
def pid5At (cs : List Char) (i : Nat) : Bool :=
  ['|', 'P', 'I', 'D', '|'].isPrefixOf (cs.drop i)

/-- Search for `\|PID\|(.+)` (greedy, `.` excludes newline), as used by
`_extract_embedded_segments`: leftmost `|PID|` followed by at least one
non-newline character; the group is the maximal non-newline run after it. -/
def searchPidGreedyAux (cs : List Char) : Nat → Nat → Option (Nat × List Char)
  | 0, _ => none
  | fuel + 1, p =>
    if pid5At cs p then
      match (cs.drop (p + 5)).head? with
      | some c =>
        if c ≠ '\n' then some (p, (cs.drop (p + 5)).takeWhile (· ≠ '\n'))
        else if p < cs.length then searchPidGreedyAux cs fuel (p + 1) else none
      | none => if p < cs.length then searchPidGreedyAux cs fuel (p + 1) else none
    else if p < cs.length then searchPidGreedyAux cs fuel (p + 1) else none

/-- Entry point of the greedy `\|PID\|(.+)` search. -/
def searchPidGreedy (cs : List Char) : Option (Nat × List Char) :=
  searchPidGreedyAux cs (cs.length + 1) 0

/-- `HL7Parser._extract_embedded_segments`: inside an `MSH`-prefixed chunk,
split at the first `|PID|` into the MSH portion and a synthesized
`PID|<data up to the next |XXX| marker or end>` segment; `none` when the chunk
is not MSH-prefixed or holds no `|PID|` match. -/
def extractEmbedded (chunk : List Char) : Option (List (List Char)) :=
  if ['M', 'S', 'H'].isPrefixOf chunk then
    match searchPidGreedy chunk with
    | some (i, pidData) =>
      let msh := chunk.take i
      let pidData2 :=
        match firstPipePat pidData with
        | some j => pidData.take j
        | none => pidData
      some [trimL msh, trimL (['P', 'I', 'D', '|'] ++ pidData2)]
    | none => none
  else none

/-- The chunk-emission loop of the single-line branch of `_split_segments`:
for each match, the text between the previous boundary and `match.start() + 1`
is a chunk (empty-after-strip chunks are dropped, MSH chunks with embedded PID
are split); trailing text after the last boundary is a final chunk. -/
def buildChunks (cs : List Char) (start : Nat) : List Nat → List (List Char)
  | [] =>
    let last := cs.drop start
    if trimL last ≠ [] then [trimL last] else []
  | m :: ms =>
    let segStart := m + 1
    let chunk := (cs.drop start).take (segStart - start)
    let pieces :=
      if trimL chunk ≠ [] then
        match extractEmbedded chunk with
        | some es => es
        | none => [trimL chunk]
      else []
    pieces ++ buildChunks cs segStart ms

/-- The single-line (no CR/LF) branch of `_split_segments`. -/
def splitSingleLine (cs : List Char) : List (List Char) :=
  match findMatches cs with
  | [] => if trimL cs ≠ [] then [trimL cs] else []
  | m :: ms => buildChunks cs 0 (m :: ms)

/-- `HL7Parser._split_segments`: with CR/LF present, split on every CR/LF, trim
and drop blanks; otherwise infer boundaries from `|XXX|` patterns. -/
def splitSegments (data : String) : List String :=
  let cs := data.data
  if cs.any (fun c => c = '\r' || c = '\n') then
    (((splitListOnPred (fun c => c = '\r' || c = '\n') cs).map trimL).filter
      (· ≠ [])).map String.mk
  else (splitSingleLine cs).map String.mk

/-- `HL7Parser.validate`: non-blank input whose first inferred segment starts
with `MSH`. -/
def hl7Validate (data : String) : Bool :=
  if pyStrip data = "" then false
  else
    match splitSegments data with
    | [] => false
    | l :: _ => ['M', 'S', 'H'].isPrefixOf l.data

/-- `HL7Parser.parse`: validate, tokenize, extract the message type from the
first segment and fold all segments into the segments mapping; errors are the
raised `ValueError` messages. -/
def hl7Parse (data : String) : Except String ParsedMessage :=
  if hl7Validate data = false then .error "Invalid HL7 data"
  else
    match splitSegments data with
    | [] => .error "HL7 parsing error: list index out of range"
    | first :: rest =>
      .ok { message_type := extractMessageType first,
            segments := buildSegments (first :: rest) }

/-! ## HL7 field access and leaf parsers -/

/-- The value shapes `_get_field_value` can return: a plain string (primitive
value or the `''` default) or a composite field's component list (the composite
dict is returned whole). -/
inductive PyVal where
  | str (s : String)
  | comp (components : List Component)
deriving DecidableEq, Repr

/-- Python truthiness of a `_get_field_value` result: a string is truthy when
non-empty; a composite field dict is a non-empty dict, hence truthy. -/
def pyTruthy : PyVal → Bool
  | .str s => s ≠ ""
  | .comp _ => true

/-- Python `a or b` on field values. -/
def pyOr (a b : PyVal) : PyVal := if pyTruthy a then a else b

/-- `HL7Parser._get_field_value` (all call sites pass default `''`). -/
def getFieldValue (fields : List (Nat × HField)) (n : Nat) : PyVal :=
  match plookup fields n with
  | some (.prim v) => .str v
  | some (.comp cs) => .comp cs
  | none => .str ""

/-- `HL7Parser._extract_component_value`: a primitive component's value; a
composite component dict has no `value` key, so `.get('value','')` yields `''`. -/
def extractComponentValue : Component → String
  | .prim v => v
  | .comp _ => ""

/-- `HL7Parser._parse_date` on a string: `YYYYMMDD` with at least 8 characters,
three purely-numeric groups, year in 1900..2100, month 1..12, day 1..31
(no days-in-month check); emitted as `f"{y}-{m:02d}-{d:02d}"`. -/
def parseHl7Date (s : String) : Option String :=
  if s = "" ∨ s.length < 8 then none
  else
    let cs := s.data
    let year := cs.take 4
    let month := (cs.drop 4).take 2
    let day := (cs.drop 6).take 2
    if year.all Char.isDigit && month.all Char.isDigit && day.all Char.isDigit then
      let y := natOfDigits year
      let m := natOfDigits month
      let d := natOfDigits day
      if 1900 ≤ y ∧ y ≤ 2100 ∧ 1 ≤ m ∧ m ≤ 12 ∧ 1 ≤ d ∧ d ≤ 31 then
        some (toString y ++ "-" ++ pad2 m ++ "-" ++ pad2 d)
      else none
    else none

/-- `_parse_date` applied to a field value: a composite field dict has
`len(...) = 2 < 8`, so it yields no date. -/
def parseDatePy : PyVal → Option String
  | .str s => parseHl7Date s
  | .comp _ => none

/-- `HL7Parser._parse_int`: falsy values yield `None`; `int(...)` on a
composite dict raises (`None`), on a string it follows the `int` grammar. -/
def parseIntPy : PyVal → Option Int
  | .str s => if s = "" then none else pythonInt s
  | .comp _ => none

/-- Name triple produced by `_parse_patient_name`. -/
structure NameData where
  first_name : String
  last_name : String
  full_name : String
deriving DecidableEq, Repr

/-- `HL7Parser._parse_patient_name`: falsy input yields empty names; a
composite field takes component 0 as last name and component 1 as first name;
a caret-bearing string is split the same way; otherwise the whole value is the
full name. -/
def parsePatientName (v : PyVal) : NameData :=
  match v with
  | .str s =>
    if s = "" then { first_name := "", last_name := "", full_name := "" }
    else if containsChar s '^' then
      let parts := pySplitChar '^' s
      let last := parts.headD ""
      let first := parts.getD 1 ""
      { first_name := first, last_name := last,
        full_name := pyStrip (first ++ " " ++ last) }
    else { first_name := "", last_name := "", full_name := s }
  | .comp comps =>
    let last := match comps with | [] => "" | c :: _ => extractComponentValue c
    let first := match comps with | _ :: c :: _ => extractComponentValue c | _ => ""
    { first_name := first, last_name := last,
      full_name := pyStrip (first ++ " " ++ last) }

/-- `HL7Parser._parse_address`: composite fields join the first four non-empty
component values with `", "`; caret-bearing strings are handled alike;
otherwise the raw value is returned. -/
def parseAddress (v : PyVal) : String :=
  match v with
  | .str s =>
    if s = "" then ""
    else if containsChar s '^' then
      String.intercalate ", " (((pySplitChar '^' s).take 4).filter (· ≠ ""))
    else s
  | .comp comps =>
    String.intercalate ", " (((comps.take 4).map extractComponentValue).filter (· ≠ ""))

/-! ## HL7 patient, prescription and drug records -/

/-- Metadata attached to an extracted patient (`source_format` is always
`'HL7'`); `source_segment` records which resolution path produced the data. -/
structure PatientMeta where
  source_segment : String
deriving DecidableEq, Repr

/-- A normalized patient as built by `_extract_patient_data`.  The initial
value `{'patient_id': ''}` (no resolution path succeeded) is modelled with
`metadata := none` and all other keys empty. -/
structure PatientData where
  patient_id : PyVal
  first_name : String
  last_name : String
  full_name : String
  date_of_birth : String
  gender : PyVal
  address : String
  phone_number : PyVal
  metadata : Option PatientMeta
deriving DecidableEq, Repr

/-- The initial `patient_data = {'patient_id': ''}` dict. -/
def emptyPatient : PatientData :=
  { patient_id := .str "", first_name := "", last_name := "", full_name := "",
    date_of_birth := "", gender := .str "", address := "",
    phone_number := .str "", metadata := none }

/-- One ORC-derived prescription-info record
(`_extract_prescription_info`). -/
structure PrescriptionInfo where
  prescription_id : PyVal
  order_control : PyVal
  filler_order_number : PyVal
  order_status : PyVal
  quantity_timing : PyVal
  orc_segment : ParsedSegment
deriving DecidableEq, Repr

/-- RXR route information (`_parse_rxr_segment`). -/
structure RouteInfo where
  administration_route : PyVal
  administration_site : PyVal
  raw : ParsedSegment
deriving DecidableEq, Repr

/-- The metadata dict of an HL7 drug record.  Keys only present on one path are
`Option`s: RXA records carry `administration_date`/`administration_info`, and
`patient_info`/`prescription_info`/`route_info` are added by the extractor. -/
structure DrugMeta where
  source_format : String
  segment_type : String
  administration_date : Option PyVal
  raw_data : ParsedSegment
  administration_info : Option PyVal
  patient_info : Option PatientData
  prescription_info : Option PrescriptionInfo
  route_info : Option RouteInfo
deriving DecidableEq, Repr

/-- A normalized HL7 drug record.  `administration_date`/`completion_status`
exist only on RXA records (modelled with `Option`). -/
structure DrugRecord where
  drug_name : String
  dosage : PyVal
  strength : PyVal
  quantity : Option Int
  administration_date : Option String
  completion_status : Option PyVal
  patient_id : PyVal
  prescription_id : PyVal
  metadata : DrugMeta
deriving DecidableEq, Repr

/-- A segment entry as the list the extractor iterates
(`if not isinstance(..., list): ... = [...]`). -/
def entryAsList : SegEntry → List ParsedSegment
  | .one s => [s]
  | .many l => l

/-- First element of a segment entry (`segments['PID'][0]` when repeated). -/
def entryFirst : SegEntry → ParsedSegment
  | .one s => s
  | .many l => l.headD { segment_name := "", fields := [] }

/-- `HL7Parser._parse_rxa_segment`. -/
def parseRxaSegment (seg : ParsedSegment) : DrugRecord :=
  let fields := seg.fields
  let field5 := getFieldValue fields 5
  let drug_name :=
    match field5 with
    | .comp comps =>
      let dn :=
        if comps.length > 1 then extractComponentValue (comps.getD 1 (.prim ""))
        else if comps.length > 0 then extractComponentValue (comps.getD 0 (.prim ""))
        else ""
      if comps.length > 4 ∧ dn = "" then extractComponentValue (comps.getD 4 (.prim ""))
      else dn
    | .str s =>
      if containsChar s '^' then
        let parts := pySplitChar '^' s
        if parts.length > 1 then parts.getD 1 "" else parts.headD ""
      else s
  let admin_date := getFieldValue fields 3
  let dosage := getFieldValue fields 6
  { drug_name := drug_name,
    dosage := dosage,
    strength := .str "",
    quantity := parseIntPy dosage,
    administration_date := some ((parseDatePy admin_date).getD ""),
    completion_status := some (getFieldValue fields 21),
    patient_id := .str "",
    prescription_id := .str "",
    metadata :=
      { source_format := "HL7", segment_type := "RXA",
        administration_date := some admin_date, raw_data := seg,
        administration_info := some (getFieldValue fields 9),
        patient_info := none, prescription_info := none, route_info := none } }

/-- `HL7Parser._parse_rxe_segment`. -/
def parseRxeSegment (seg : ParsedSegment) : DrugRecord :=
  let fields := seg.fields
  let field1 := getFieldValue fields 1
  let drug_name :=
    match field1 with
    | .comp comps =>
      if comps.length > 1 then extractComponentValue (comps.getD 1 (.prim ""))
      else ""
    | .str s =>
      if containsChar s '^' then
        let parts := pySplitChar '^' s
        if parts.length > 1 then parts.getD 1 "" else s
      else s
  { drug_name := drug_name,
    dosage := getFieldValue fields 4,
    strength := getFieldValue fields 2,
    quantity := parseIntPy (getFieldValue fields 5),
    administration_date := none,
    completion_status := none,
    patient_id := .str "",
    prescription_id := .str "",
    metadata :=
      { source_format := "HL7", segment_type := "RXE",
        administration_date := none, raw_data := seg,
        administration_info := none,
        patient_info := none, prescription_info := none, route_info := none } }

/-- `HL7Parser._parse_rxr_segment`. -/
def parseRxrSegment (seg : ParsedSegment) : RouteInfo :=
  { administration_route := getFieldValue seg.fields 1,
    administration_site := getFieldValue seg.fields 2,
    raw := seg }

/-- `HL7Parser._extract_prescription_info`: one info record per ORC segment,
in source order; `prescription_id` is ORC field 2. -/
def extractPrescriptionInfo (pd : ParsedMessage) : List PrescriptionInfo :=
  match plookup pd.segments "ORC" with
  | none => []
  | some e =>
    (entryAsList e).map fun orc =>
      { prescription_id := getFieldValue orc.fields 2,
        order_control := getFieldValue orc.fields 1,
        filler_order_number := getFieldValue orc.fields 3,
        order_status := getFieldValue orc.fields 5,
        quantity_timing := getFieldValue orc.fields 7,
        orc_segment := orc }

/-! ## Embedded-PID raw-text search (`re.search(r'\|PID\|(.+?)(?=\|[A-Z]{3}\||$)')`) -/

/-- Positions where the regex anchor `$` matches (no MULTILINE): end of string,
or just before a single trailing newline. -/
def atDollar (cs : List Char) (p : Nat) : Bool :=
  p = cs.length || (p + 1 = cs.length && cs.getD p ' ' = '\n')

/-- Positions where the lookahead `(?=\|[A-Z]{3}\||$)` succeeds. -/
def capStop (cs : List Char) (p : Nat) : Bool :=
  pipePatAt cs p || atDollar cs p

/-- Lazy expansion of `(.+?)` starting at `start` with `k ≥ 1` characters
already consumed (all non-newline): stop at the smallest `k` whose following
position satisfies the lookahead; fail on a newline before any stop. -/
def capScanAux (cs : List Char) (start : Nat) : Nat → Nat → Option (List Char)
  | 0, _ => none
  | fuel + 1, k =>
    if capStop cs (start + k) then some ((cs.drop start).take k)
    else
      match (cs.drop (start + k)).head? with
      | none => none
      | some c => if c = '\n' then none else capScanAux cs start fuel (k + 1)

/-- The search for `\|PID\|(.+?)(?=\|[A-Z]{3}\||$)`: leftmost `|PID|` whose
following text admits a lazy `(.+?)` match ending at a lookahead position;
returns the captured group. -/
def searchPidCaptureAux (cs : List Char) : Nat → Nat → Option (List Char)
  | 0, _ => none
  | fuel + 1, p =>
    let try1 : Option (List Char) :=
      if pid5At cs p then
        match (cs.drop (p + 5)).head? with
        | some c => if c = '\n' then none else capScanAux cs (p + 5) (cs.length + 1) 1
        | none => none
      else none
    match try1 with
    | some g => some g
    | none => if p < cs.length then searchPidCaptureAux cs fuel (p + 1) else none

/-- Entry point of the embedded-PID capture search. -/
def searchPidCapture (cs : List Char) : Option (List Char) :=
  searchPidCaptureAux cs (cs.length + 1) 0

/-! ## HL7 patient extraction (`_extract_patient_data`) -/

/-- Path (a): patient data from the (first) PID segment of the model. -/
def mkPidPatient (seg : ParsedSegment) : PatientData :=
  let fields := seg.fields
  let nd := parsePatientName (getFieldValue fields 5)
  { patient_id := pyOr (getFieldValue fields 3) (getFieldValue fields 2),
    first_name := nd.first_name, last_name := nd.last_name,
    full_name := nd.full_name,
    date_of_birth := (parseDatePy (getFieldValue fields 7)).getD "",
    gender := getFieldValue fields 8,
    address := parseAddress (getFieldValue fields 11),
    phone_number := pyOr (getFieldValue fields 13) (getFieldValue fields 14),
    metadata := some { source_segment := "PID" } }

/-- Path (b): patient data parsed manually from the captured embedded-PID text
(already split on `|`, with at least 8 elements). -/
def mkEmbeddedPatient (pidFields : List String) : PatientData :=
  let nd := parsePatientName (.str (pidFields.getD 4 ""))
  { patient_id := .str (pidFields.getD 2 ""),
    first_name := nd.first_name, last_name := nd.last_name,
    full_name := nd.full_name,
    date_of_birth := (parseHl7Date (pidFields.getD 6 "")).getD "",
    gender := .str (pidFields.getD 7 ""),
    address := "", phone_number := .str "",
    metadata := some { source_segment := "PID_EMBEDDED" } }

/-- Path (c): minimal patient data from the (first) PV1 segment. -/
def mkPv1Patient (seg : ParsedSegment) : PatientData :=
  let fields := seg.fields
  let pid0 := getFieldValue fields 19
  let pid1 :=
    match getFieldValue fields 20 with
    | .comp comps =>
      match comps with
      | [] => pid0
      | c :: _ =>
        let v := extractComponentValue c
        if v ≠ "" then .str v else pid0
    | _ => pid0
  { patient_id := pyOr pid1 (.str "PV1_PATIENT"),
    first_name := "", last_name := "",
    full_name := "Patient from PV1",
    date_of_birth := "1900-01-01",
    gender := .str "", address := "", phone_number := .str "",
    metadata := some { source_segment := "PV1" } }

/-- `HL7Parser._extract_patient_data`: PID segment first; else, when the first
raw segment textually contains `|PID|`, the raw-text fallback (which takes
patient data only when the captured text splits on `|` into at least 8
elements); finally, with the patient id still falsy, the PV1 fallback. -/
def extractPatientData (pd : ParsedMessage) (rawSegments : List String) :
    PatientData :=
  let base :=
    match plookup pd.segments "PID" with
    | some e => mkPidPatient (entryFirst e)
    | none =>
      match rawSegments with
      | [] => emptyPatient
      | first :: _ =>
        if containsSub first.data ['|', 'P', 'I', 'D', '|'] then
          match searchPidCapture first.data with
          | some pidData =>
            let pidFields := (splitListOn '|' pidData).map String.mk
            if pidFields.length ≥ 8 then mkEmbeddedPatient pidFields
            else emptyPatient
          | none => emptyPatient
        else emptyPatient
  if pyTruthy base.patient_id = false then
    match plookup pd.segments "PV1" with
    | some e => mkPv1Patient (entryFirst e)
    | none => base
  else base

/-! ## HL7 drug extraction (`extract_drug_data`) -/

/-- The extraction result (`{'patients': [...], 'drug_records': [...]}`). -/
structure HL7ExtractionResult where
  patients : List PatientData
  drug_records : List DrugRecord
deriving DecidableEq, Repr

/-- The per-record stamping done inside the extraction loop: the resolved
patient id and patient metadata are always attached; the `i`-th prescription
info (if it exists, i.e. `i < len(prescription_info)`) supplies
`prescription_id` and prescription metadata. -/
def stampRecord (patientData : PatientData)
    (prescriptionInfo : List PrescriptionInfo) (i : Nat) (r : DrugRecord) :
    DrugRecord :=
  let r1 :=
    { r with patient_id := patientData.patient_id,
             metadata := { r.metadata with patient_info := some patientData } }
  match prescriptionInfo.get? i with
  | some pi =>
    { r1 with prescription_id := pi.prescription_id,
              metadata := { r1.metadata with prescription_info := some pi } }
  | none => r1

/-- The RXR pass: the `i`-th RXR segment's route info is stored into the `i`-th
already-built drug record's metadata; extra routes are discarded,
extra records are untouched. -/
def applyRxr : List DrugRecord → List RouteInfo → List DrugRecord
  | [], _ => []
  | rs, [] => rs
  | r :: rs, ro :: ros =>
    { r with metadata := { r.metadata with route_info := some ro } } ::
      applyRxr rs ros

/-- `HL7Parser.extract_drug_data`: the resolved patient is emitted when its id
is truthy; RXA segments (or else RXE segments) become drug records — a record
is appended only when its `drug_name` is non-empty — stamped with the patient
id and positionally-correlated ORC prescription info; RXR route info is then
positionally merged. -/
def hl7ExtractDrugData (pd : ParsedMessage) (rawSegments : List String) :
    HL7ExtractionResult :=
  let prescriptionInfo := extractPrescriptionInfo pd
  let patientData := extractPatientData pd rawSegments
  let patients := if pyTruthy patientData.patient_id then [patientData] else []
  let base :=
    match plookup pd.segments "RXA" with
    | some e =>
      (entryAsList e).enum.filterMap fun p =>
        let r := parseRxaSegment p.2
        if r.drug_name ≠ "" then some (stampRecord patientData prescriptionInfo p.1 r)
        else none
    | none =>
      match plookup pd.segments "RXE" with
      | some e =>
        (entryAsList e).enum.filterMap fun p =>
          let r := parseRxeSegment p.2
          if r.drug_name ≠ "" then some (stampRecord patientData prescriptionInfo p.1 r)
          else none
      | none => []
  let recs :=
    match plookup pd.segments "RXR" with
    | some e => applyRxr base ((entryAsList e).map parseRxrSegment)
    | none => base
  { patients := patients, drug_records := recs }

/-! ## XML tree model (`xml_parser.py`) -/

/-- The untyped values of the XML tree normalizer: a text string, a nested dict
(tag → value), or the ordered list a repeated tag collapses into. -/
inductive XVal where
  | s (v : String)
  | dict (entries : List (String × XVal))
  | list (items : List XVal)

/-- Python truthiness of an XML tree value. -/
def xTruthy : XVal → Bool
  | .s v => v ≠ ""
  | .dict es => !es.isEmpty
  | .list is => !is.isEmpty

/-- `dict.get(k, default)` on a tree dict. -/
def xmlGetD (es : List (String × XVal)) (k : String) (d : XVal) : XVal :=
  (plookup es k).getD d

/-- `dict.get(k)` (no default) on a tree dict. -/
def xmlGet? (es : List (String × XVal)) (k : String) : Option XVal :=
  plookup es k

/-- Python `a or b` where `a` is a `dict.get` result that may be absent (`None`). -/
def xOr (a : Option XVal) (b : XVal) : XVal :=
  match a with
  | some v => if xTruthy v then v else b
  | none => b

/-- An element of the external XML library's tree (`xml.etree.ElementTree`):
tag, attributes, child elements and the text before the first child
(`''` models `None`).  Child tails are never read by the normalizer and are
omitted. -/
inductive Element where
  | mk (tag : String) (attrib : List (String × String)) (children : List Element)
      (text : String)

/-- Tag of an element. -/
def Element.tag : Element → String
  | .mk t _ _ _ => t

/-- The duplicate-tag merge step of `_parse_xml_node`: the first repeat
promotes the existing value to a list, later repeats append. -/
def xmlInsert (m : List (String × XVal)) (k : String) (v : XVal) :
    List (String × XVal) :=
  if hasKey m k then
    m.map fun p =>
      if p.1 = k then
        (p.1, match p.2 with
          | XVal.list l => XVal.list (l ++ [v])
          | old => XVal.list [old, v])
      else p
  else m ++ [(k, v)]

/-- `XMLParser._parse_xml_node` (fuel-indexed; fuel bounds the tree depth, and
any fuel at least the depth gives the exact translation): attributes under the
reserved `@attributes` key; children merged with the duplicate-tag rule; a
childless node is its trimmed text (or the attribute-only dict). -/
def parseXmlNodeF : Nat → Element → String × XVal
  | 0, .mk tag _ _ _ => (tag, XVal.dict [])
  | fuel + 1, .mk tag attrib children text =>
    let base : List (String × XVal) :=
      if attrib ≠ [] then
        [("@attributes", XVal.dict (attrib.map fun p => (p.1, XVal.s p.2)))]
      else []
    if !children.isEmpty then
      (tag, XVal.dict (children.foldl
        (fun acc c =>
          let p := parseXmlNodeF fuel c
          xmlInsert acc p.1 p.2) base))
    else if pyStrip text ≠ "" then (tag, XVal.s (pyStrip text))
    else (tag, XVal.dict base)

/-! ## XML clinical extractor -/

/-- `str(...)` rendering of a tree value, as Python prints nested
dicts/lists/strings (string values in single quotes); used by the keyword check
of `_is_drug_record`. -/
def pyReprF : Nat → XVal → String
  | 0, _ => ""
  | fuel + 1, v =>
    match v with
    | .s w => "'" ++ w ++ "'"
    | .dict es =>
      "\x7b" ++
        String.intercalate ", "
          (es.map fun p => "'" ++ p.1 ++ "': " ++ pyReprF fuel p.2) ++
        "\x7d"
    | .list is =>
      "[" ++ String.intercalate ", " (is.map fun x => pyReprF fuel x) ++ "]"

/-- `XMLParser._is_drug_record`: at least one of `name`/`dosage`/`strength`/
`quantity` as a key, a drug keyword in the lower-cased `str(...)` rendering,
and no `patient_id` key. -/
def isDrugRecordF (fuel : Nat) (es : List (String × XVal)) : Bool :=
  let hasDrugFields :=
    hasKey es "name" || hasKey es "dosage" || hasKey es "strength" ||
      hasKey es "quantity"
  let rendering := (pyLower (pyReprF fuel (XVal.dict es))).data
  let hasDrugKeywords :=
    containsSub rendering "drug".data || containsSub rendering "medication".data ||
      containsSub rendering "medicine".data
  hasDrugFields && hasDrugKeywords && !hasKey es "patient_id"

/-- `int(...)` coercion used by `XMLParser._parse_int` on a present value. -/
def xvalToInt : XVal → Option Int
  | .s v => pythonInt v
  | _ => none

/-- `XMLParser._parse_int` on a `dict.get(k)` result (`None` stays `None`). -/
def xmlParseInt (v : Option XVal) : Option Int :=
  match v with
  | none => none
  | some w => xvalToInt w

/-- A normalized XML patient (`_normalize_patient_data` output); `full_name`
keeps the raw `name` value, `metadata.raw_data` holds the patient dict. -/
structure XmlPatient where
  patient_id : XVal
  first_name : String
  last_name : String
  full_name : XVal
  age : Option Int
  gender : XVal
  address : XVal
  phone_number : XVal
  raw : List (String × XVal)

/-- Python `name.split(' ', 1)`: the text before the first space and the whole
remainder. -/
def splitFirstSpace (v : String) : String × String :=
  let p := v.data.span (· ≠ ' ')
  (String.mk p.1, String.mk (p.2.drop 1))

/-- `XMLParser._normalize_patient_data`. -/
def normalizePatientData (pes : List (String × XVal)) : XmlPatient :=
  let name := xmlGetD pes "name" (XVal.s "")
  let split :=
    match name with
    | XVal.s v => if v ≠ "" ∧ containsChar v ' ' then some (splitFirstSpace v) else none
    | _ => none
  { patient_id := xmlGetD pes "id" (XVal.s ""),
    first_name := (split.map Prod.fst).getD "",
    last_name := (split.map Prod.snd).getD "",
    full_name := name,
    age := xmlParseInt (xmlGet? pes "age"),
    gender := xmlGetD pes "gender" (XVal.s ""),
    address := xmlGetD pes "address" (XVal.s ""),
    phone_number := xmlGetD pes "phone" (XVal.s ""),
    raw := pes }

/-- `patient_info.get('id', '') if patient_info else ''` with the guard that
`.get` is only meaningful on a dict. -/
def patientIdOf (p : XVal) : XVal :=
  if xTruthy p then
    match p with
    | XVal.dict es => xmlGetD es "id" (XVal.s "")
    | _ => XVal.s ""
  else XVal.s ""

/-- A normalized XML drug record (`_normalize_drug_record` output); the
conditionally-set metadata keys are `Option`s. -/
structure XmlDrugRecord where
  drug_name : XVal
  dosage : XVal
  strength : XVal
  quantity : Option Int
  patient_id : XVal
  prescription_id : XVal
  raw : List (String × XVal)
  meta_patient_info : Option XVal
  meta_prescription_info : Option XVal

/-- `XMLParser._normalize_drug_record`. -/
def normalizeDrugRecord (data : List (String × XVal)) (patient_info : Option XVal)
    (prescription_info : Option XVal) : XmlDrugRecord :=
  let piTruthy := match patient_info with | some p => xTruthy p | none => false
  { drug_name :=
      xOr (xmlGet? data "name")
        (xOr (xmlGet? data "drug_name") (xmlGetD data "medication_name" (XVal.s ""))),
    dosage := xOr (xmlGet? data "dosage") (xmlGetD data "dose" (XVal.s "")),
    strength := xOr (xmlGet? data "strength") (xmlGetD data "potency" (XVal.s "")),
    quantity := xmlParseInt (xmlGet? data "quantity"),
    patient_id :=
      xOr (xmlGet? data "patient_id")
        (match patient_info with
         | some p => if xTruthy p then patientIdOf p else XVal.s ""
         | none => XVal.s ""),
    prescription_id :=
      xOr (xmlGet? data "prescription_id") (xmlGetD data "id" (XVal.s "")),
    raw := data,
    meta_patient_info :=
      if piTruthy then patient_info
      else
        match xmlGet? data "patient" with
        | some (XVal.dict es) => some (XVal.dict es)
        | _ => none,
    meta_prescription_info :=
      match prescription_info with
      | some pr => if xTruthy pr then some pr else none
      | none => none }

/-- The generic heuristic scan `extract_drugs_recursive` over one value
(fuel-indexed): a dict classified as a drug record is normalized, otherwise its
entries are scanned; list items that are dicts are scanned as dicts. -/
def scanValueF : Nat → XVal → List XmlDrugRecord
  | 0, _ => []
  | fuel + 1, v =>
    match v with
    | XVal.s _ => []
    | XVal.dict es =>
      if isDrugRecordF (fuel + 1) es then [normalizeDrugRecord es none none]
      else (es.map fun p => scanValueF fuel p.2).flatten
    | XVal.list items =>
      (items.map fun x =>
        match x with
        | XVal.dict es => (es.map fun p => scanValueF fuel p.2).flatten
        | _ => []).flatten

/-- The scan entry point over the top-level parsed dict. -/
def scanEntriesF (fuel : Nat) (es : List (String × XVal)) : List XmlDrugRecord :=
  (es.map fun p => scanValueF fuel p.2).flatten

/-- The XML extraction result. -/
structure XmlExtractionResult where
  patients : List XmlPatient
  drug_records : List XmlDrugRecord

/-- The `patient` handling shared by both prescription branches: the patient is
normalized and emitted only when `patient_info` is a truthy dict and the
normalized `patient_id` is truthy. -/
def patientsOfPrescription (pres : List (String × XVal)) : List XmlPatient :=
  match xmlGetD pres "patient" (XVal.dict []) with
  | XVal.dict pes =>
    if xTruthy (XVal.dict pes) then
      let pdta := normalizePatientData pes
      if xTruthy pdta.patient_id then [pdta] else []
    else []
  | _ => []

/-- The `prescriptions.prescription` loop: each dict prescription contributes
its patient and its (singular) `medication` dict, normalized unconditionally. -/
def processPrescList : List XVal → List XmlPatient × List XmlDrugRecord
  | [] => ([], [])
  | XVal.dict pres :: rest =>
    let tailRes := processPrescList rest
    let patient_info := xmlGetD pres "patient" (XVal.dict [])
    let recs :=
      match xmlGetD pres "medication" (XVal.dict []) with
      | XVal.dict mes =>
        [normalizeDrugRecord mes (some patient_info) (some (XVal.dict pres))]
      | _ => []
    (patientsOfPrescription pres ++ tailRes.1, recs ++ tailRes.2)
  | _ :: rest => processPrescList rest

/-- The single-`prescription` branch: the patient, plus the
`medications.medication` list (a bare truthy value becomes a one-element list),
each dict entry normalized unconditionally. -/
def processSinglePrescription (pres : List (String × XVal)) :
    List XmlPatient × List XmlDrugRecord :=
  let patient_info := xmlGetD pres "patient" (XVal.dict [])
  let recs :=
    match xmlGetD pres "medications" (XVal.dict []) with
    | XVal.dict mes =>
      let ml := xmlGetD mes "medication" (XVal.list [])
      let mlist :=
        match ml with
        | XVal.list l => l
        | v => if xTruthy v then [v] else []
      mlist.filterMap fun m =>
        match m with
        | XVal.dict mes2 =>
          some (normalizeDrugRecord mes2 (some patient_info) (some (XVal.dict pres)))
        | _ => none
    | _ => []
  (patientsOfPrescription pres, recs)

/-- `XMLParser.extract_drug_data`: the generic heuristic scan, followed by the
`prescriptions.prescription` walk or else the single-`prescription` walk;
scan records come first, prescription-walk records are appended after. -/
def xmlExtractDrugData (fuel : Nat) (parsed : List (String × XVal)) :
    XmlExtractionResult :=
  let scanRecs := scanEntriesF fuel parsed
  let walk :=
    match xmlGet? parsed "prescriptions" with
    | some (XVal.dict pres) =>
      match xmlGet? pres "prescription" with
      | some pv =>
        let plist := match pv with | XVal.list l => l | v => [v]
        processPrescList plist
      | none => ([], [])
    | some _ => ([], [])
    | none =>
      match xmlGet? parsed "prescription" with
      | some (XVal.dict pres) => processSinglePrescription pres
      | some _ => ([], [])
      | none => ([], [])
  { patients := walk.1, drug_records := scanRecs ++ walk.2 }

/-! ## External XML library model (`xml.etree.ElementTree.fromstring`)

A simplified model of the external XML parser the repository consumes: it
recognizes well-formed elements (attributes, nesting, text) and rejects
malformed input with an expat-style diagnostic.  Only its accept/reject
behaviour and its diagnostic text are relied upon. -/

/-- Characters allowed in a tag or attribute name (simplified). -/
def isNameChar (c : Char) : Bool :=
  c.isAlphanum || c = '_' || c = '-' || c = ':' || c = '.'

/-- Skip leading whitespace. -/
def skipWs (cs : List Char) : List Char := cs.dropWhile Char.isWhitespace

/-- Attribute list of one start tag: `name="value"` pairs separated by
whitespace; returns the remaining input with leading whitespace consumed. -/
def parseAttrsF : Nat → List Char → Except String (List (String × String) × List Char)
  | 0, _ => .error "internal error"
  | fuel + 1, cs =>
    let cs1 := skipWs cs
    match cs1 with
    | c :: _ =>
      if isNameChar c then
        let name := cs1.takeWhile isNameChar
        let cs2 := skipWs (cs1.drop name.length)
        match cs2 with
        | '=' :: cs3 =>
          match skipWs cs3 with
          | '"' :: cs4 =>
            let value := cs4.takeWhile (· ≠ '"')
            match cs4.drop value.length with
            | '"' :: cs5 =>
              match parseAttrsF fuel cs5 with
              | .ok (attrs, rest) => .ok ((String.mk name, String.mk value) :: attrs, rest)
              | .error e => .error e
            | _ => .error "unclosed token"
          | _ => .error "not well-formed (invalid token)"
        | _ => .error "not well-formed (invalid token)"
      else .ok ([], cs1)
    | [] => .ok ([], [])

mutual

/-- One element: `<name attrs/>` or `<name attrs>text children</name>`. -/
def parseElementF : Nat → List Char → Except String (Element × List Char)
  | 0, _ => .error "document too deeply nested"
  | fuel + 1, cs =>
    match skipWs cs with
    | '<' :: rest =>
      let name := rest.takeWhile isNameChar
      if name.isEmpty then .error "not well-formed (invalid token)"
      else
        match parseAttrsF (rest.length + 1) (rest.drop name.length) with
        | .error e => .error e
        | .ok (attrs, afterAttrs) =>
          match afterAttrs with
          | '/' :: '>' :: r => .ok (.mk (String.mk name) attrs [] "", r)
          | '>' :: r =>
            let text := r.takeWhile (· ≠ '<')
            match parseChildrenF fuel (r.drop text.length) with
            | .error e => .error e
            | .ok (children, r2) =>
              match r2 with
              | '<' :: '/' :: r3 =>
                let cname := r3.takeWhile isNameChar
                if cname = name then
                  match skipWs (r3.drop cname.length) with
                  | '>' :: r4 =>
                    .ok (.mk (String.mk name) attrs children (String.mk text), r4)
                  | _ => .error "unclosed token"
                else .error "mismatched tag"
              | _ => .error "no element found"
          | _ => .error "not well-formed (invalid token)"
    | [] => .error "no element found"
    | _ => .error "syntax error"

/-- The child sequence of an element body, stopping before `</`; text between
children (a child's tail) is skipped, as the normalizer never reads it. -/
def parseChildrenF : Nat → List Char → Except String (List Element × List Char)
  | 0, _ => .error "document too deeply nested"
  | fuel + 1, cs =>
    match cs with
    | '<' :: '/' :: _ => .ok ([], cs)
    | '<' :: _ =>
      match parseElementF fuel cs with
      | .error e => .error e
      | .ok (e, r) =>
        let tail := r.takeWhile (· ≠ '<')
        match parseChildrenF fuel (r.drop tail.length) with
        | .error err => .error err
        | .ok (es, r2) => .ok (e :: es, r2)
    | [] => .ok ([], [])
    | _ => .ok ([], cs)

end

/-- The external `ET.fromstring`: one root element, with only trailing
whitespace allowed after it. -/
def etFromstring (data : String) : Except String Element :=
  match parseElementF (2 * data.length + 2) data.data with
  | .error e => .error e
  | .ok (el, rest) =>
    if (skipWs rest).isEmpty then .ok el
    else .error "junk after document element"

/-- `XMLParser.validate`: true exactly when the external parser accepts. -/
def xmlValidate (data : String) : Bool :=
  match etFromstring data with
  | .ok _ => true
  | .error _ => false

/-- `XMLParser.parse`: a failed validation raises the fixed message
`"Invalid XML data"`; otherwise the tree is normalized into the one-entry
root mapping (a failure at this stage would be wrapped as
`"XML parsing error: ..."`). -/
def xmlParse (data : String) : Except String (List (String × XVal)) :=
  if xmlValidate data = false then .error "Invalid XML data"
  else
    match etFromstring data with
    | .ok el => .ok [parseXmlNodeF (data.length + 1) el]
    | .error e => .error ("XML parsing error: " ++ e)

/-! ## Parser-object state (idempotence of the pipelines)

Both parser classes set their instance attributes only in `__init__`; every
method reads them without assignment.  The state-threaded wrappers make that
explicit: each operation takes the parser state and returns it unchanged
alongside its result. -/

/-- The `HL7Parser` instance attributes. -/
structure HL7ParserState where
  segment_delimiter : String
  field_delimiter : String
  component_delimiter : String
  subcomponent_delimiter : String
  repetition_delimiter : String
  escape_character : String
deriving DecidableEq, Repr

/-- `HL7Parser.__init__`. -/
def hl7InitState : HL7ParserState :=
  { segment_delimiter := "\r|\n", field_delimiter := "|",
    component_delimiter := "^", subcomponent_delimiter := "&",
    repetition_delimiter := "~", escape_character := "\\" }

/-- State-threaded `HL7Parser.parse`. -/
def hl7ParseSt (st : HL7ParserState) (data : String) :
    HL7ParserState × Except String ParsedMessage :=
  (st, hl7Parse data)

/-- State-threaded `HL7Parser.extract_drug_data`. -/
def hl7ExtractSt (st : HL7ParserState) (pm : ParsedMessage)
    (rawSegments : List String) : HL7ParserState × HL7ExtractionResult :=
  (st, hl7ExtractDrugData pm rawSegments)

/-- The HL7 `extract_drug_data(parse(x))` pipeline, threading parser state. -/
def hl7PipelineSt (st : HL7ParserState) (data : String) :
    HL7ParserState × Except String HL7ExtractionResult :=
  let p := hl7ParseSt st data
  match p.2 with
  | .ok pm =>
    let e := hl7ExtractSt p.1 pm (splitSegments data)
    (e.1, .ok e.2)
  | .error err => (p.1, .error err)

/-- The `XMLParser` instance attributes. -/
structure XMLParserState where
  supported_formats : List String
deriving DecidableEq, Repr

/-- `XMLParser.__init__`. -/
def xmlInitState : XMLParserState :=
  { supported_formats := ["prescription", "medication", "patient"] }

/-- State-threaded `XMLParser.parse`. -/
def xmlParseSt (st : XMLParserState) (data : String) :
    XMLParserState × Except String (List (String × XVal)) :=
  (st, xmlParse data)

/-- State-threaded `XMLParser.extract_drug_data`. -/
def xmlExtractSt (st : XMLParserState) (parsed : List (String × XVal))
    (fuel : Nat) : XMLParserState × XmlExtractionResult :=
  (st, xmlExtractDrugData fuel parsed)

/-- The XML `extract_drug_data(parse(x))` pipeline, threading parser state. -/
def xmlPipelineSt (st : XMLParserState) (data : String) :
    XMLParserState × Except String XmlExtractionResult :=
  let p := xmlParseSt st data
  match p.2 with
  | .ok parsed =>
    let e := xmlExtractSt p.1 parsed (data.length + 1)
    (e.1, .ok e.2)
  | .error err => (p.1, .error err)

/-! ## Shared lemmas about the extraction loops -/

/-- A predicate invariant under storing route info is preserved by the RXR
pass. -/
theorem applyRxr_all (P : DrugRecord → Bool)
    (hP : ∀ r ro,
      P { r with metadata := { r.metadata with route_info := some ro } } = P r) :
    ∀ (recs : List DrugRecord) (routes : List RouteInfo),
      (applyRxr recs routes).all P = recs.all P := by
  intro recs
  induction recs with
  | nil => intro routes; cases routes <;> rfl
  | cons r rs ih =>
    intro routes
    cases routes with
    | nil => rfl
    | cons ro ros => simp [applyRxr, hP, ih]

/-- `filterMap` results all satisfy a predicate established at creation. -/
theorem all_filterMap_true {α β : Type} (f : α → Option β) (P : β → Bool)
    (h : ∀ a b, f a = some b → P b = true) (l : List α) :
    (l.filterMap f).all P = true := by
  induction l with
  | nil => rfl
  | cons a t ih =>
    cases hfa : f a with
    | none => simpa [List.filterMap_cons, hfa] using ih
    | some b =>
      simp only [List.filterMap_cons, hfa, List.all_cons, Bool.and_eq_true]
      exact ⟨h a b hfa, ih⟩

/-- Stamping never changes the drug name. -/
theorem stampRecord_drug_name (pdta : PatientData) (pi : List PrescriptionInfo)
    (i : Nat) (r : DrugRecord) :
    (stampRecord pdta pi i r).drug_name = r.drug_name := by
  unfold stampRecord
  cases pi.get? i <;> rfl

/-- Stamping never changes the metadata segment type. -/
theorem stampRecord_segment_type (pdta : PatientData) (pi : List PrescriptionInfo)
    (i : Nat) (r : DrugRecord) :
    (stampRecord pdta pi i r).metadata.segment_type = r.metadata.segment_type := by
  unfold stampRecord
  cases pi.get? i <;> rfl

/-- Stamping installs the resolved patient id. -/
theorem stampRecord_patient_id (pdta : PatientData) (pi : List PrescriptionInfo)
    (i : Nat) (r : DrugRecord) :
    (stampRecord pdta pi i r).patient_id = pdta.patient_id := by
  unfold stampRecord
  cases pi.get? i <;> rfl

/-! ## C4: the HL7 date parsing rule -/

/-- Rendition of the spec's date condition: at least 8 characters, the three
groups purely numeric, year in 1900..2100, month in 1..12, day in 1..31. -/
def hl7DateSpecCond (s : String) : Bool :=
  decide (8 ≤ s.length) &&
  ((s.data.take 4).all Char.isDigit &&
    ((s.data.drop 4).take 2).all Char.isDigit &&
    ((s.data.drop 6).take 2).all Char.isDigit) &&
  decide (1900 ≤ natOfDigits (s.data.take 4) ∧
    natOfDigits (s.data.take 4) ≤ 2100 ∧
    1 ≤ natOfDigits ((s.data.drop 4).take 2) ∧
    natOfDigits ((s.data.drop 4).take 2) ≤ 12 ∧
    1 ≤ natOfDigits ((s.data.drop 6).take 2) ∧
    natOfDigits ((s.data.drop 6).take 2) ≤ 31)

/-- Rendition of the spec's output format: year, dash, zero-padded month,
dash, zero-padded day. -/
def hl7DateSpecOut (s : String) : String :=
  toString (natOfDigits (s.data.take 4)) ++ "-" ++
    pad2 (natOfDigits ((s.data.drop 4).take 2)) ++ "-" ++
    pad2 (natOfDigits ((s.data.drop 6).take 2))

/-- C4: for every input string, the HL7 date parser returns the zero-padded
`YYYY-MM-DD` rendering exactly when the input has length at least 8, its first
4 / next 2 / next 2 characters are purely numeric, and year, month, day lie in
1900..2100, 1..12, 1..31 respectively; in every other case it returns absence
(never an error).  In particular `"20150202"` parses to `"2015-02-02"` while
`"abcd1234"` and `"9999"` yield absence. -/
theorem c4_parse_date_rule :
    (∀ s : String, parseHl7Date s =
      if hl7DateSpecCond s = true then some (hl7DateSpecOut s) else none) ∧
    parseHl7Date "20150202" = some "2015-02-02" ∧
    parseHl7Date "abcd1234" = none ∧
    parseHl7Date "9999" = none := by
  refine ⟨fun s => ?_, rfl, rfl, rfl⟩
  unfold parseHl7Date hl7DateSpecCond hl7DateSpecOut
  by_cases h8 : 8 ≤ s.length
  · have hne : ¬(s = "" ∨ s.length < 8) := by
      rintro (h | h)
      · subst h; exact absurd h8 (by decide)
      · omega
    rw [if_neg hne]
    simp only []
    have h8d : decide (8 ≤ s.length) = true := decide_eq_true h8
    by_cases hd : ((s.data.take 4).all Char.isDigit &&
        ((s.data.drop 4).take 2).all Char.isDigit &&
        ((s.data.drop 6).take 2).all Char.isDigit) = true
    · rw [if_pos hd]
      by_cases hr : (1900 ≤ natOfDigits (s.data.take 4) ∧
          natOfDigits (s.data.take 4) ≤ 2100 ∧
          1 ≤ natOfDigits ((s.data.drop 4).take 2) ∧
          natOfDigits ((s.data.drop 4).take 2) ≤ 12 ∧
          1 ≤ natOfDigits ((s.data.drop 6).take 2) ∧
          natOfDigits ((s.data.drop 6).take 2) ≤ 31)
      · rw [if_pos hr, if_pos (by rw [h8d, hd, decide_eq_true hr]; rfl)]
      · rw [if_neg hr, if_neg ?_]
        rw [h8d, hd, Bool.true_and, Bool.true_and]
        exact fun hcontra => hr (of_decide_eq_true hcontra)
    · rw [if_neg hd, if_neg ?_]
      intro hcontra
      rw [h8d, Bool.true_and] at hcontra
      exact hd (Bool.and_elim_left hcontra)
  · have hcond : s = "" ∨ s.length < 8 := Or.inr (by omega)
    rw [if_pos hcond, if_neg ?_]
    intro hcontra
    have := Bool.and_elim_left (Bool.and_elim_left hcontra)
    exact h8 (of_decide_eq_true this)

/-! ## C9: determinism / idempotence of the pipelines -/

/-- C9: running `extract_drug_data(parse(x))` twice on the same input yields
structurally identical results, for both the HL7 and the XML pipeline: the
parser state is returned unchanged by a run (no method mutates the parser
object), and the second run — started from the state the first run left —
produces the same result value. -/
theorem c9_pipeline_idempotent :
    ∀ (st : HL7ParserState) (xst : XMLParserState) (d x : String),
      (hl7PipelineSt st d).1 = st ∧
      (hl7PipelineSt (hl7PipelineSt st d).1 d).2 = (hl7PipelineSt st d).2 ∧
      (xmlPipelineSt xst x).1 = xst ∧
      (xmlPipelineSt (xmlPipelineSt xst x).1 x).2 = (xmlPipelineSt xst x).2 := by
  intro st xst d x
  refine ⟨?_, ?_, ?_, ?_⟩
  · unfold hl7PipelineSt hl7ParseSt hl7ExtractSt
    cases hl7Parse d <;> rfl
  · unfold hl7PipelineSt hl7ParseSt hl7ExtractSt
    cases hl7Parse d <;> rfl
  · unfold xmlPipelineSt xmlParseSt xmlExtractSt
    cases xmlParse x <;> rfl
  · unfold xmlPipelineSt xmlParseSt xmlExtractSt
    cases xmlParse x <;> rfl

/-! ## C2: RXA/RXE mutual exclusion -/

/-- C2: whenever the parsed message holds both RXA and RXE segments, every
extracted drug record carries metadata segment type `"RXA"` — no RXE-derived
fact appears. -/
theorem c2_rxa_rxe_exclusion (pd : ParsedMessage) (raw : List String)
    (hA : (plookup pd.segments "RXA").isSome = true)
    (_hE : (plookup pd.segments "RXE").isSome = true) :
    ((hl7ExtractDrugData pd raw).drug_records.all
      (fun r => r.metadata.segment_type == "RXA")) = true := by
  obtain ⟨e, he⟩ := Option.isSome_iff_exists.mp hA
  unfold hl7ExtractDrugData
  rw [he]
  simp only []
  have hbase : ∀ (segs : List ParsedSegment),
      ((segs.enum.filterMap fun p =>
        let r := parseRxaSegment p.2
        if r.drug_name ≠ "" then
          some (stampRecord (extractPatientData pd raw) (extractPrescriptionInfo pd) p.1 r)
        else none).all (fun r => r.metadata.segment_type == "RXA")) = true := by
    intro segs
    apply all_filterMap_true
    intro a b hab
    simp only [] at hab
    by_cases hn : (parseRxaSegment a.2).drug_name ≠ ""
    · rw [if_pos hn] at hab
      cases hab
      rw [beq_iff_eq, stampRecord_segment_type]
      rfl
    · rw [if_neg hn] at hab
      cases hab
  cases hR : plookup pd.segments "RXR" with
  | none => exact hbase _
  | some e2 =>
    rw [applyRxr_all (fun r => r.metadata.segment_type == "RXA") (fun r ro => rfl)]
    exact hbase _

/-- Concrete message with both an RXA and an RXE segment, for the C2 witness. -/
def c2Pd : ParsedMessage :=
  { message_type := { message_type := "VXU", trigger_event := "V04" },
    segments :=
      [("MSH", .one (parseSegment "MSH|^~\\&|app")),
       ("RXA", .one (parseSegment "RXA|0|1|20150202||141^influenza, SEASONAL 36^CVX|0.5")),
       ("RXE", .one (parseSegment "RXE|^Aspirin^81MG^TAB|81MG||1|30"))] }

/-- C2 witness: the theorem applied to a concrete message holding both RXA and
RXE segments. -/
theorem c2_rxa_rxe_exclusion_witness :
    ((hl7ExtractDrugData c2Pd []).drug_records.all
      (fun r => r.metadata.segment_type == "RXA")) = true :=
  c2_rxa_rxe_exclusion c2Pd [] rfl rfl

/-! ## C1: non-emptiness of emitted drug names and patient ids -/

/-- A parsed XML tree whose single prescription holds one medication element
with a dosage but no name: the XML extractor emits it with an empty
`drug_name`. -/
def c1CexInput : List (String × XVal) :=
  [("prescription", XVal.dict
     [("medications", XVal.dict
        [("medication", XVal.dict [("dosage", XVal.s "81mg")])])])]

/-- C1 counterexample: the XML extractor emits a drug fact whose `drug_name`
is empty (falsy) — the claimed invariant fails for the XML side, because
`XMLParser.extract_drug_data` appends prescription-walk medication records
without any drug-name check. -/
theorem c1_counterexample :
    ((xmlExtractDrugData 10 c1CexInput).drug_records.any
      (fun r => !(xTruthy r.drug_name))) = true := by
  rfl

/-- C1 amended: the HL7 extractor discards empty-named drug facts before
appending, so every emitted HL7 drug fact has non-empty `drug_name`; both
extractors emit only patients with truthy `patient_id`; the XML extractor,
however, performs no drug-name check (see the counterexample). -/
theorem c1_amended_nonemptiness :
    (∀ (pd : ParsedMessage) (raw : List String),
      ((hl7ExtractDrugData pd raw).drug_records.all
        (fun r => r.drug_name != "")) = true) ∧
    (∀ (pd : ParsedMessage) (raw : List String),
      ((hl7ExtractDrugData pd raw).patients.all
        (fun p => pyTruthy p.patient_id)) = true) ∧
    (∀ (fuel : Nat) (parsed : List (String × XVal)),
      ((xmlExtractDrugData fuel parsed).patients.all
        (fun p => xTruthy p.patient_id)) = true) := by
  refine ⟨?_, ?_, ?_⟩
  · intro pd raw
    unfold hl7ExtractDrugData
    simp only []
    have hbase : ∀ (segs : List ParsedSegment) (parser : ParsedSegment → DrugRecord),
        ((segs.enum.filterMap fun p =>
          let r := parser p.2
          if r.drug_name ≠ "" then
            some (stampRecord (extractPatientData pd raw) (extractPrescriptionInfo pd) p.1 r)
          else none).all (fun r => r.drug_name != "")) = true := by
      intro segs parser
      apply all_filterMap_true
      intro a b hab
      simp only [] at hab
      by_cases hn : (parser a.2).drug_name ≠ ""
      · rw [if_pos hn] at hab
        cases hab
        rw [bne_iff_ne, stampRecord_drug_name]
        exact hn
      · rw [if_neg hn] at hab
        cases hab
    have hmain : ∀ (base : List DrugRecord),
        (base.all (fun r => r.drug_name != "")) = true →
        (((match plookup pd.segments "RXR" with
           | some e => applyRxr base ((entryAsList e).map parseRxrSegment)
           | none => base).all (fun r => r.drug_name != "")) = true) := by
      intro base hb
      cases plookup pd.segments "RXR" with
      | none => exact hb
      | some e2 =>
        rw [applyRxr_all (fun r => r.drug_name != "") (fun r ro => rfl)]
        exact hb
    cases hA : plookup pd.segments "RXA" with
    | some e => exact hmain _ (hbase _ _)
    | none =>
      cases hE : plookup pd.segments "RXE" with
      | some e => exact hmain _ (hbase _ _)
      | none => exact hmain [] rfl
  · intro pd raw
    unfold hl7ExtractDrugData
    simp only []
    cases ht : pyTruthy (extractPatientData pd raw).patient_id <;>
      simp [ht]
  · intro fuel parsed
    unfold xmlExtractDrugData
    have hPres : ∀ (pres : List (String × XVal)),
        ((patientsOfPrescription pres).all (fun p => xTruthy p.patient_id)) = true := by
      intro pres
      unfold patientsOfPrescription
      cases xmlGetD pres "patient" (XVal.dict []) with
      | dict pes =>
        simp only []
        by_cases h1 : xTruthy (XVal.dict pes) = true
        · rw [if_pos h1]
          by_cases h2 : xTruthy (normalizePatientData pes).patient_id = true
          · rw [if_pos h2]
            simp [h2]
          · rw [if_neg h2]; rfl
        · rw [if_neg h1]; rfl
      | s v => rfl
      | list l => rfl
    have hList : ∀ (l : List XVal),
        ((processPrescList l).1.all (fun p => xTruthy p.patient_id)) = true := by
      intro l
      induction l with
      | nil => rfl
      | cons h t ih =>
        cases h with
        | dict pres =>
          simp only [processPrescList, List.all_append, Bool.and_eq_true]
          exact ⟨hPres pres, ih⟩
        | s v => exact ih
        | list ll => exact ih
    cases hk : xmlGet? parsed "prescriptions" with
    | some v =>
      cases v with
      | dict pres =>
        simp only [hk]
        cases hk1 : xmlGet? pres "prescription" with
        | some pv => simp only [hk1]; exact hList _
        | none => simp only [hk1]; rfl
      | s w => simp only [hk]; rfl
      | list l => simp only [hk]; rfl
    | none =>
      cases hk2 : xmlGet? parsed "prescription" with
      | some v =>
        cases v with
        | dict pres =>
          simp only [hk, hk2, processSinglePrescription]
          exact hPres pres
        | s w => simp only [hk, hk2]; rfl
        | list l => simp only [hk, hk2]; rfl
      | none => simp only [hk, hk2]; rfl

/-! ## C10: the eight-element guard of the embedded-PID raw-text fallback -/

/-- C10: with no PID segment in the model and a first raw segment containing
`|PID|`, when the captured text splits on `|` into fewer than 8 elements the
raw-text fallback contributes nothing: patient extraction behaves exactly as
with no raw segments at all (patient id stays empty, the PV1 fallback — if
applicable — is tried instead), regardless of what the split's elements hold. -/
theorem c10_embedded_pid_guard (pd : ParsedMessage) (first : String)
    (rest : List String) (g : List Char)
    (hpid : plookup pd.segments "PID" = none)
    (hcontains : containsSub first.data ['|', 'P', 'I', 'D', '|'] = true)
    (hsearch : searchPidCapture first.data = some g)
    (hshort : ((splitListOn '|' g).map String.mk).length < 8) :
    extractPatientData pd (first :: rest) = extractPatientData pd [] := by
  unfold extractPatientData
  rw [hpid]
  simp only [hcontains, hsearch, if_true]
  rw [if_neg (show ¬((List.map String.mk (splitListOn '|' g)).length ≥ 8) by omega)]

/-- Message model with neither PID nor PV1 segments, for the C10 witness. -/
def c10Pd : ParsedMessage :=
  { message_type := { message_type := "", trigger_event := "" },
    segments := [("MSH", .one (parseSegment "MSH|1|PID|A|B"))] }

/-- C10 witness: on `"MSH|1|PID|A|B"` the capture is `"A|B"`, which splits into
2 < 8 elements, so extraction with the raw segment equals extraction without
raw segments (and the patient id stays empty). -/
theorem c10_embedded_pid_guard_witness :
    extractPatientData c10Pd ["MSH|1|PID|A|B"] = extractPatientData c10Pd [] ∧
    (extractPatientData c10Pd ["MSH|1|PID|A|B"]).patient_id = PyVal.str "" :=
  ⟨c10_embedded_pid_guard c10Pd "MSH|1|PID|A|B" [] ['A', '|', 'B'] rfl rfl rfl
      (by decide),
   by rw [c10_embedded_pid_guard c10Pd "MSH|1|PID|A|B" [] ['A', '|', 'B'] rfl rfl rfl
      (by decide)]; rfl⟩

/-! ## C7: the two-medication prescription scenario -/

/-- The Scenario-A element tree: one `prescription` with patient `PAT001` /
`John Doe` and two `medications.medication` entries. -/
def c7Input : Element :=
  .mk "prescription" []
    [.mk "patient" [] [.mk "id" [] [] "PAT001", .mk "name" [] [] "John Doe"] "",
     .mk "medications" []
       [.mk "medication" []
          [.mk "name" [] [] "Aspirin", .mk "dosage" [] [] "81mg",
           .mk "quantity" [] [] "30"] "",
        .mk "medication" []
          [.mk "name" [] [] "Lisinopril", .mk "dosage" [] [] "10mg",
           .mk "quantity" [] [] "60"] ""] ""] ""

/-- C7: normalizing the Scenario-A tree and extracting yields exactly one
patient (`PAT001`, full name `John Doe`) and exactly two drug records in input
order (Aspirin then Lisinopril), each stamped with patient id `PAT001`. -/
theorem c7_two_medication_scenario :
    ((xmlExtractDrugData 10 [parseXmlNodeF 10 c7Input]).patients.map
        (fun p => (p.patient_id, p.full_name, p.first_name, p.last_name)))
      = [(XVal.s "PAT001", XVal.s "John Doe", "John", "Doe")] ∧
    ((xmlExtractDrugData 10 [parseXmlNodeF 10 c7Input]).drug_records.map
        (fun r => (r.drug_name, r.patient_id, r.quantity)))
      = [(XVal.s "Aspirin", XVal.s "PAT001", some 30),
         (XVal.s "Lisinopril", XVal.s "PAT001", some 60)] := by
  exact ⟨rfl, rfl⟩

/-! ## C8: malformed XML -/

/-- C8 counterexample: on `"<invalid>xml"` validation is false and `parse`
raises, but with the fixed message `"Invalid XML data"`, which does not contain
the underlying XML parser's diagnostic text (`"no element found"`) — so the
claim that the raised message contains the diagnostic is false. -/
theorem c8_counterexample :
    xmlValidate "<invalid>xml" = false ∧
    xmlParse "<invalid>xml" = Except.error "Invalid XML data" ∧
    etFromstring "<invalid>xml" = Except.error "no element found" ∧
    containsSub "Invalid XML data".data "no element found".data = false := by
  exact ⟨rfl, rfl, rfl, by decide⟩

/-- C8 amended: `"<invalid>xml"` fails validation, and every input failing
validation makes `parse` raise the fixed message `"Invalid XML data"` (not one
containing the underlying parser's diagnostic). -/
theorem c8_amended_malformed_xml :
    xmlValidate "<invalid>xml" = false ∧
    (∀ s : String, xmlValidate s = false →
      xmlParse s = Except.error "Invalid XML data") := by
  refine ⟨rfl, fun s h => ?_⟩
  unfold xmlParse
  rw [h]
  rfl

/-- C8 witness: the amended theorem applied at the concrete malformed input. -/
theorem c8_amended_malformed_xml_witness :
    xmlParse "<invalid>xml" = Except.error "Invalid XML data" :=
  c8_amended_malformed_xml.2 "<invalid>xml" (by rfl)

/-! ## C6: positional ORC correlation and patient stamping -/

/-- The drug-segment family the extractor iterates (RXA segments, else RXE
segments), already parsed, in source order. -/
def hl7DrugParsedList (pd : ParsedMessage) : List DrugRecord :=
  match plookup pd.segments "RXA" with
  | some e => (entryAsList e).map parseRxaSegment
  | none =>
    match plookup pd.segments "RXE" with
    | some e => (entryAsList e).map parseRxeSegment
    | none => []

/-- The ORC segments of the message, in source order. -/
def orcSegList (pd : ParsedMessage) : List ParsedSegment :=
  match plookup pd.segments "ORC" with
  | some e => entryAsList e
  | none => []

/-- The prescription assignment for drug-segment index `i`: the `i`-th ORC info
when it exists, otherwise the empty prescription id and no metadata. -/
def prescAssign (infos : List PrescriptionInfo) (i : Nat) :
    PyVal × Option PrescriptionInfo :=
  match infos.get? i with
  | some pi => (pi.prescription_id, some pi)
  | none => (.str "", none)

/-- A projection ignoring route info commutes with the RXR pass. -/
theorem applyRxr_map {α : Type} (f : DrugRecord → α)
    (hf : ∀ r ro,
      f { r with metadata := { r.metadata with route_info := some ro } } = f r) :
    ∀ (recs : List DrugRecord) (routes : List RouteInfo),
      (applyRxr recs routes).map f = recs.map f := by
  intro recs
  induction recs with
  | nil => intro routes; cases routes <;> rfl
  | cons r rs ih =>
    intro routes
    cases routes with
    | nil => rfl
    | cons ro ros => simp [applyRxr, hf, ih]

/-- Enumeration commutes with `map` on the values. -/
theorem enumFrom_map_vals {α β : Type} (g : α → β) :
    ∀ (l : List α) (n : Nat),
      List.enumFrom n (l.map g) = (List.enumFrom n l).map (fun p => (p.1, g p.2)) := by
  intro l
  induction l with
  | nil => intro n; rfl
  | cons a t ih => intro n; simp [List.enumFrom, ih]

/-- Stamping a freshly-parsed record (which carries the empty prescription id
and no prescription metadata) realizes exactly the positional prescription
assignment. -/
theorem stampRecord_presc (pdta : PatientData) (infos : List PrescriptionInfo)
    (i : Nat) (r : DrugRecord) (h1 : r.prescription_id = .str "")
    (h2 : r.metadata.prescription_info = none) :
    ((stampRecord pdta infos i r).prescription_id,
      (stampRecord pdta infos i r).metadata.prescription_info) =
      prescAssign infos i := by
  unfold stampRecord prescAssign
  cases infos.get? i with
  | some pi => rfl
  | none => simp only []; rw [h1, h2]

/-- C6: the sequence of `(prescription_id, prescription metadata)` pairs of the
extracted drug records equals the positional assignment over the drug-segment
family — the `i`-th drug segment (when its parsed name is non-empty) receives
the `i`-th ORC info when it exists and the empty prescription id otherwise;
every extracted record carries the single resolved patient id; and the ORC
infos' prescription ids are exactly field 2 of the ORC segments in order. -/
theorem c6_orc_positional_correlation (pd : ParsedMessage) (raw : List String) :
    ((hl7ExtractDrugData pd raw).drug_records.map
        (fun r => (r.prescription_id, r.metadata.prescription_info)))
      = ((hl7DrugParsedList pd).enum.filterMap fun p =>
          if p.2.drug_name ≠ "" then
            some (prescAssign (extractPrescriptionInfo pd) p.1)
          else none) ∧
    ((hl7ExtractDrugData pd raw).drug_records.all
        (fun r => r.patient_id == (extractPatientData pd raw).patient_id)) = true ∧
    ((extractPrescriptionInfo pd).map (fun pi => pi.prescription_id)
      = (orcSegList pd).map (fun s => getFieldValue s.fields 2)) := by
  refine ⟨?_, ?_, ?_⟩
  · unfold hl7ExtractDrugData hl7DrugParsedList
    simp only []
    have hproj : ∀ (base : List DrugRecord),
        ((match plookup pd.segments "RXR" with
          | some e => applyRxr base ((entryAsList e).map parseRxrSegment)
          | none => base).map
            (fun (r : DrugRecord) => (r.prescription_id, r.metadata.prescription_info)))
          = base.map (fun r => (r.prescription_id, r.metadata.prescription_info)) := by
      intro base
      cases plookup pd.segments "RXR" with
      | none => rfl
      | some e2 =>
        exact applyRxr_map
          (fun r => (r.prescription_id, r.metadata.prescription_info))
          (fun r ro => rfl) base _
    have hside : ∀ (segs : List ParsedSegment) (parser : ParsedSegment → DrugRecord),
        (∀ s, (parser s).prescription_id = .str "") →
        (∀ s, (parser s).metadata.prescription_info = none) →
        ((segs.enum.filterMap fun p =>
            let r := parser p.2
            if r.drug_name ≠ "" then
              some (stampRecord (extractPatientData pd raw)
                (extractPrescriptionInfo pd) p.1 r)
            else none).map
          (fun r => (r.prescription_id, r.metadata.prescription_info)))
          = ((segs.map parser).enum.filterMap fun p =>
              if p.2.drug_name ≠ "" then
                some (prescAssign (extractPrescriptionInfo pd) p.1)
              else none) := by
      intro segs parser hp1 hp2
      rw [List.map_filterMap]
      unfold List.enum
      rw [enumFrom_map_vals, List.filterMap_map]
      apply List.filterMap_congr
      intro p _
      simp only [Function.comp]
      by_cases hn : (parser p.2).drug_name ≠ ""
      · rw [if_pos hn, if_pos hn]
        exact congrArg some (stampRecord_presc _ _ _ _ (hp1 p.2) (hp2 p.2))
      · rw [if_neg hn, if_neg hn]
        rfl
    cases hA : plookup pd.segments "RXA" with
    | some e =>
      rw [hproj]
      exact hside (entryAsList e) parseRxaSegment (fun s => rfl) (fun s => rfl)
    | none =>
      cases hE : plookup pd.segments "RXE" with
      | some e =>
        rw [hproj]
        exact hside (entryAsList e) parseRxeSegment (fun s => rfl) (fun s => rfl)
      | none => rw [hproj []]; rfl
  · unfold hl7ExtractDrugData
    simp only []
    have hbase : ∀ (segs : List ParsedSegment) (parser : ParsedSegment → DrugRecord),
        ((segs.enum.filterMap fun p =>
          let r := parser p.2
          if r.drug_name ≠ "" then
            some (stampRecord (extractPatientData pd raw)
              (extractPrescriptionInfo pd) p.1 r)
          else none).all
            (fun r => r.patient_id == (extractPatientData pd raw).patient_id)) = true := by
      intro segs parser
      apply all_filterMap_true
      intro a b hab
      simp only [] at hab
      by_cases hn : (parser a.2).drug_name ≠ ""
      · rw [if_pos hn] at hab
        cases hab
        rw [beq_iff_eq, stampRecord_patient_id]
      · rw [if_neg hn] at hab
        cases hab
    have hmain : ∀ (base : List DrugRecord),
        (base.all (fun r => r.patient_id == (extractPatientData pd raw).patient_id)) = true →
        (((match plookup pd.segments "RXR" with
           | some e => applyRxr base ((entryAsList e).map parseRxrSegment)
           | none => base).all
            (fun r => r.patient_id == (extractPatientData pd raw).patient_id)) = true) := by
      intro base hb
      cases plookup pd.segments "RXR" with
      | none => exact hb
      | some e2 =>
        rw [applyRxr_all
          (fun r => r.patient_id == (extractPatientData pd raw).patient_id)
          (fun r ro => rfl)]
        exact hb
    cases hA : plookup pd.segments "RXA" with
    | some e => exact hmain _ (hbase _ _)
    | none =>
      cases hE : plookup pd.segments "RXE" with
      | some e => exact hmain _ (hbase _ _)
      | none => exact hmain [] rfl
  · unfold extractPrescriptionInfo orcSegList
    cases plookup pd.segments "ORC" with
    | none => rfl
    | some e => simp [List.map_map]

/-! ## C3: the single-vs-list collapsing invariant of the segments mapping -/

/-- The shape the claim asserts for a name occurring `k` times: absent for
`k = 0`, a bare segment for `k = 1`, the ordered occurrence list for `k ≥ 2`. -/
def segShape : List ParsedSegment → Option SegEntry
  | [] => none
  | [s] => some (.one s)
  | l => some (.many l)

/-- How the value of one key evolves while the remaining occurrences are
folded in. -/
def segCombine : Option SegEntry → List ParsedSegment → Option SegEntry
  | none, l => segShape l
  | some (.one s), [] => some (.one s)
  | some (.one s), l => some (.many (s :: l))
  | some (.many xs), l => some (.many (xs ++ l))

/-- Looking up a key whose first binding was found skips an appended tail. -/
theorem plookup_append_of_none {α : Type} (m m' : List (String × α)) (k : String)
    (h : plookup m k = none) : plookup (m ++ m') k = plookup m' k := by
  induction m with
  | nil => rfl
  | cons p t ih =>
    obtain ⟨k', w⟩ := p
    by_cases hk : k' = k
    · simp only [plookup, if_pos hk] at h
      cases h
    · simp only [plookup, if_neg hk] at h
      rw [List.cons_append]
      simp only [plookup, if_neg hk]
      exact ih h

/-- Appending one binding does not affect other keys. -/
theorem plookup_append_single_other {α : Type} (m : List (String × α))
    (k name : String) (x : α) (h : name ≠ k) :
    plookup (m ++ [(k, x)]) name = plookup m name := by
  induction m with
  | nil =>
    have : ¬ k = name := fun hc => h hc.symm
    simp [plookup, this]
  | cons p t ih =>
    obtain ⟨k', w⟩ := p
    rw [List.cons_append]
    by_cases hk : k' = name
    · simp only [plookup, if_pos hk]
    · simp only [plookup, if_neg hk]
      exact ih

/-- Modifying every binding of key `k` modifies exactly the looked-up value. -/
theorem plookup_mapModify_same {α : Type} (m : List (String × α)) (k : String)
    (f : α → α) :
    plookup (m.map fun p => if p.1 = k then (p.1, f p.2) else p) k =
      (plookup m k).map f := by
  induction m with
  | nil => rfl
  | cons p t ih =>
    obtain ⟨k', w⟩ := p
    by_cases hk : k' = k
    · subst hk
      simp only [List.map_cons, if_pos rfl]
      simp [plookup, ih]
    · simp only [List.map_cons]
      rw [if_neg hk]
      simp only [plookup, if_neg hk]
      exact ih

/-- Modifying the bindings of key `k` leaves other keys unchanged. -/
theorem plookup_mapModify_other {α : Type} (m : List (String × α))
    (k name : String) (f : α → α) (h : name ≠ k) :
    plookup (m.map fun p => if p.1 = k then (p.1, f p.2) else p) name =
      plookup m name := by
  induction m with
  | nil => rfl
  | cons p t ih =>
    obtain ⟨k', w⟩ := p
    by_cases hk : k' = k
    · subst hk
      have hn : ¬ k' = name := fun hc => h (hc ▸ rfl)
      simp only [List.map_cons, if_pos rfl]
      simp only [plookup, if_neg hn]
      exact ih
    · simp only [List.map_cons]
      rw [if_neg hk]
      by_cases hn : k' = name
      · simp only [plookup, if_pos hn]
      · simp only [plookup, if_neg hn]
        exact ih

/-- Inserting under key `k` transforms that key's value by the collision rule. -/
theorem plookup_segInsert_same (m : List (String × SegEntry)) (k : String)
    (v : ParsedSegment) :
    plookup (segInsert m k v) k =
      some (match plookup m k with
        | none => SegEntry.one v
        | some (.one s) => SegEntry.many [s, v]
        | some (.many l) => SegEntry.many (l ++ [v])) := by
  unfold segInsert hasKey
  cases hm : plookup m k with
  | none =>
    rw [if_neg (by simp)]
    rw [plookup_append_of_none m _ k hm]
    simp [plookup]
  | some e =>
    rw [if_pos (by simp)]
    rw [plookup_mapModify_same m k
      (fun old => match old with
        | .one s => SegEntry.many [s, v]
        | .many l => SegEntry.many (l ++ [v]))]
    rw [hm]
    cases e <;> rfl

/-- Inserting under key `k` leaves other keys' values unchanged. -/
theorem plookup_segInsert_other (m : List (String × SegEntry)) (k name : String)
    (v : ParsedSegment) (h : name ≠ k) :
    plookup (segInsert m k v) name = plookup m name := by
  unfold segInsert hasKey
  cases hm : (plookup m k).isSome with
  | false =>
    rw [if_neg (by simp)]
    exact plookup_append_single_other m k name _ h
  | true =>
    rw [if_pos rfl]
    exact plookup_mapModify_other m k name
      (fun old => match old with
        | .one s => SegEntry.many [s, v]
        | .many l => SegEntry.many (l ++ [v])) h

/-- The insertion fold of `HL7Parser.parse`, started from any partial mapping:
the value a name ends at is its starting value combined with its remaining
occurrences. -/
theorem buildSegments_loop (name : String) :
    ∀ (lines : List String) (m : List (String × SegEntry)),
      plookup (lines.foldl
        (fun acc line => segInsert acc (segKey line) (parseSegment line)) m) name
        = segCombine (plookup m name)
            ((lines.filter (fun l => segKey l == name)).map parseSegment) := by
  intro lines
  induction lines with
  | nil =>
    intro m
    simp only [List.foldl_nil, List.filter_nil, List.map_nil]
    cases hm : plookup m name with
    | none => rfl
    | some e =>
      cases e with
      | one s => rfl
      | many l => simp [segCombine]
  | cons line rest ih =>
    intro m
    rw [List.foldl_cons, ih]
    by_cases h : segKey line = name
    · have hb : (segKey line == name) = true := beq_iff_eq.mpr h
      rw [List.filter_cons, if_pos hb, List.map_cons]
      rw [h, plookup_segInsert_same]
      cases hm : plookup m name with
      | none =>
        cases hocc : (rest.filter (fun l => segKey l == name)).map parseSegment with
        | nil => rfl
        | cons x xs => rfl
      | some e =>
        cases e with
        | one s =>
          cases hocc : (rest.filter (fun l => segKey l == name)).map parseSegment with
          | nil => rfl
          | cons x xs => rfl
        | many xs => simp [segCombine]
    · have hb : (segKey line == name) = false :=
        beq_eq_false_iff_ne.mpr h
      rw [List.filter_cons, if_neg (by rw [hb]; exact Bool.false_ne_true)]
      rw [plookup_segInsert_other m (segKey line) name (parseSegment line)
        (fun hc => h hc.symm)]

/-- C3: in the message model, a segment name occurring `k ≥ 2` times among the
tokenized segments maps to the ordered list of its `k` decomposed occurrences
in source order, a name occurring exactly once maps to the bare decomposed
segment (not a one-element list), and an absent name has no key — this is the
`segShape` of the occurrence list; and every successfully parsed message's
segments mapping is exactly this fold over the tokenized segment list. -/
theorem c3_segment_collapsing :
    (∀ (lines : List String) (name : String),
      plookup (buildSegments lines) name
        = segShape ((lines.filter (fun l => segKey l == name)).map parseSegment)) ∧
    (∀ data : String, hl7Validate data = true →
      ∃ pm, hl7Parse data = Except.ok pm ∧
        pm.segments = buildSegments (splitSegments data)) := by
  constructor
  · intro lines name
    unfold buildSegments
    rw [buildSegments_loop]
    rfl
  · intro data h
    unfold hl7Parse
    rw [if_neg (by rw [h]; exact fun hc => Bool.noConfusion hc)]
    have hs : splitSegments data ≠ [] := by
      intro hnil
      unfold hl7Validate at h
      rw [hnil] at h
      by_cases hp : pyStrip data = ""
      · rw [if_pos hp] at h; cases h
      · rw [if_neg hp] at h; cases h
    cases hsp : splitSegments data with
    | nil => exact absurd hsp hs
    | cons first restl => exact ⟨_, rfl, by rw [← hsp]⟩

/-- Concrete message with a repeated OBX name, a unique PID name and no NK1
segment, for the C3 witness. -/
def c3Data : String :=
  "MSH|^~\\&|app\rPID|1|P001\rOBX|1|a\rOBX|2|b"

/-- C3 witness: the collapsing invariant and the parse connection evaluated on
a concrete message — the repeated name is an ordered two-element list, the
unique name a bare segment, the absent name has no key. -/
theorem c3_segment_collapsing_witness :
    plookup (buildSegments (splitSegments c3Data)) "OBX"
      = some (SegEntry.many [parseSegment "OBX|1|a", parseSegment "OBX|2|b"]) ∧
    plookup (buildSegments (splitSegments c3Data)) "PID"
      = some (SegEntry.one (parseSegment "PID|1|P001")) ∧
    plookup (buildSegments (splitSegments c3Data)) "NK1" = none ∧
    (∃ pm, hl7Parse c3Data = Except.ok pm ∧
      pm.segments = buildSegments (splitSegments c3Data)) := by
  refine ⟨?_, ?_, ?_, c3_segment_collapsing.2 c3Data (by rfl)⟩
  · rw [c3_segment_collapsing.1 (splitSegments c3Data) "OBX"]
    rfl
  · rw [c3_segment_collapsing.1 (splitSegments c3Data) "PID"]
    rfl
  · rw [c3_segment_collapsing.1 (splitSegments c3Data) "NK1"]
    rfl

/-! ## C5: single-line messages with an embedded `|PID|` -/

/-- The C5 premise: the single-line tokenizer's first `|XXX|` boundary match is
the `|PID|` text itself (i.e. the `|PID|` occurrence lies inside the leading
MSH span, before any other boundary marker). -/
def firstMatchIsPid (data : String) : Bool :=
  match findMatches data.data with
  | i :: _ => pid5At data.data i
  | [] => false

/-- Soundness of the non-overlapping match scan: a produced head match is at or
after the scan start, matches the pattern, and the remaining matches are a scan
from five positions later. -/
theorem findMatchesAux_sound (cs : List Char) :
    ∀ (fuel p i : Nat) (rest : List Nat),
      findMatchesAux cs fuel p = i :: rest →
      p ≤ i ∧ pipePatAt cs i = true ∧
        ∃ fuel', rest = findMatchesAux cs fuel' (i + 5) := by
  intro fuel
  induction fuel with
  | zero => intro p i rest h; cases h
  | succ n ih =>
    intro p i rest h
    unfold findMatchesAux at h
    by_cases hp : pipePatAt cs p = true
    · rw [if_pos hp] at h
      cases h
      exact ⟨Nat.le_refl _, hp, n, rfl⟩
    · rw [if_neg hp] at h
      by_cases hl : p < cs.length
      · rw [if_pos hl] at h
        obtain ⟨h1, h2, h3⟩ := ih (p + 1) i rest h
        exact ⟨by omega, h2, h3⟩
      · rw [if_neg hl] at h
        cases h

/-- Every match produced by the scan is at or after the scan start. -/
theorem findMatchesAux_mem_ge (cs : List Char) :
    ∀ (fuel p m : Nat), m ∈ findMatchesAux cs fuel p → p ≤ m := by
  intro fuel
  induction fuel with
  | zero => intro p m h; cases h
  | succ n ih =>
    intro p m h
    unfold findMatchesAux at h
    by_cases hp : pipePatAt cs p = true
    · rw [if_pos hp] at h
      cases h with
      | head => exact Nat.le_refl _
      | tail _ hmem => have := ih (p + 5) m hmem; omega
    · rw [if_neg hp] at h
      by_cases hl : p < cs.length
      · rw [if_pos hl] at h
        have := ih (p + 1) m h
        omega
      · rw [if_neg hl] at h
        cases h

/-- A prefix of bounded length survives `take`. -/
theorem prefix_take_of_le {p l : List Char} {n : Nat} (h : p <+: l)
    (hn : p.length ≤ n) : p <+: l.take n := by
  obtain ⟨t, rfl⟩ := h
  rw [List.take_append_eq_append_take, List.take_of_length_le hn]
  exact ⟨t.take (n - p.length), rfl⟩

/-- A non-empty all-non-whitespace prefix survives Python `strip()`. -/
theorem prefix_trimL {p l : List Char} (hne : p ≠ [])
    (hws : ∀ c ∈ p, c.isWhitespace = false) (h : p <+: l) : p <+: trimL l := by
  obtain ⟨t, rfl⟩ := h
  unfold trimL
  have hdw : (p ++ t).dropWhile Char.isWhitespace = p ++ t := by
    cases p with
    | nil => exact absurd rfl hne
    | cons c cp =>
      rw [List.cons_append, List.dropWhile_cons]
      rw [hws c (List.mem_cons_self c cp)]
      rfl
  rw [hdw, List.reverse_append, List.dropWhile_append]
  have hrevp : p.reverse.dropWhile Char.isWhitespace = p.reverse := by
    cases hrev : p.reverse with
    | nil =>
      exact absurd (by simpa using congrArg List.reverse hrev) hne
    | cons c cp =>
      have hc : c ∈ p := by
        have : c ∈ p.reverse := by rw [hrev]; exact List.mem_cons_self c cp
        simpa using this
      rw [List.dropWhile_cons, hws c hc]
      rfl
  by_cases hcase : ((t.reverse.dropWhile Char.isWhitespace).isEmpty) = true
  · rw [if_pos hcase, hrevp, List.reverse_reverse]
  · rw [if_neg hcase, List.reverse_append, List.reverse_reverse]
    exact ⟨(t.reverse.dropWhile Char.isWhitespace).reverse, rfl⟩

/-- The four-character `PID|` prefix of the text following a `|PID|` match. -/
theorem pid5At_drop_succ {cs : List Char} {i : Nat} (h : pid5At cs i = true) :
    ['P', 'I', 'D', '|'] <+: cs.drop (i + 1) := by
  unfold pid5At at h
  have hpre : ['|', 'P', 'I', 'D', '|'] <+: cs.drop i :=
    (List.isPrefixOf_iff_prefix).mp h
  obtain ⟨t, ht⟩ := hpre
  have : cs.drop (i + 1) = (cs.drop i).drop 1 := by
    rw [List.drop_drop]
  rw [this, ← ht]
  exact ⟨t, rfl⟩

/-- A name occurring among the occurrences makes the mapping entry present. -/
theorem segShape_isSome_of_ne_nil {l : List ParsedSegment} (h : l ≠ []) :
    (segShape l).isSome = true := by
  cases l with
  | nil => exact absurd rfl h
  | cons x xs => cases xs <;> rfl

/-- The chunk emitted right after a `|PID|` boundary match starts with `PID`. -/
theorem buildChunks_pid_chunk (cs : List Char) (i : Nat) (rest : List Nat)
    (hpre : ['P', 'I', 'D', '|'] <+: cs.drop (i + 1))
    (hge : ∀ m ∈ rest, i + 5 ≤ m) :
    ∃ chunk ∈ buildChunks cs (i + 1) rest, chunk.take 3 = ['P', 'I', 'D'] := by
  have hws : ∀ c ∈ (['P', 'I', 'D', '|'] : List Char), c.isWhitespace = false := by
    decide
  cases rest with
  | nil =>
    have htr : ['P', 'I', 'D', '|'] <+: trimL (cs.drop (i + 1)) :=
      prefix_trimL (by simp) hws hpre
    have hne : trimL (cs.drop (i + 1)) ≠ [] := by
      intro h0
      rw [h0, List.prefix_nil] at htr
      cases htr
    refine ⟨trimL (cs.drop (i + 1)), ?_, ?_⟩
    · unfold buildChunks
      rw [if_pos hne]
      exact List.mem_singleton.mpr rfl
    · obtain ⟨t, ht⟩ := htr
      rw [← ht]
      rfl
  | cons m t =>
    have hm := hge m (List.mem_cons_self m t)
    have hcp : ['P', 'I', 'D', '|'] <+: (cs.drop (i + 1)).take (m + 1 - (i + 1)) :=
      prefix_take_of_le hpre (by simp; omega)
    have htr := prefix_trimL (by simp) hws hcp
    have hne : trimL ((cs.drop (i + 1)).take (m + 1 - (i + 1))) ≠ [] := by
      intro h0
      rw [h0, List.prefix_nil] at htr
      cases htr
    have hnm : ¬ (['M', 'S', 'H'].isPrefixOf
        ((cs.drop (i + 1)).take (m + 1 - (i + 1))) = true) := by
      intro habs
      obtain ⟨t1, ht1⟩ := (List.isPrefixOf_iff_prefix).mp habs
      obtain ⟨t2, ht2⟩ := hcp
      rw [← ht2] at ht1
      simp at ht1
    have hemb : extractEmbedded ((cs.drop (i + 1)).take (m + 1 - (i + 1))) = none := by
      unfold extractEmbedded
      rw [if_neg hnm]
    refine ⟨trimL ((cs.drop (i + 1)).take (m + 1 - (i + 1))), ?_, ?_⟩
    · unfold buildChunks
      simp only []
      rw [if_pos hne, hemb]
      exact List.mem_append_left _ (List.mem_singleton.mpr rfl)
    · obtain ⟨t3, ht3⟩ := htr
      rw [← ht3]
      rfl

/-- C5: for a single-line message (no CR/LF) whose first inferred `|XXX|`
boundary is the `|PID|` text inside the leading MSH span, the tokenizer yields
a separate segment starting with `PID`; the parsed message then holds a `PID`
key, so patient extraction resolves through the PID-segment path — its result
does not depend on the raw segments, i.e. the raw-text embedded-PID fallback is
never consulted. -/
theorem c5_embedded_pid_single_line (data : String)
    (hnl : (data.data.any (fun c => c = '\r' || c = '\n')) = false)
    (hfm : firstMatchIsPid data = true)
    (hv : hl7Validate data = true) :
    ((splitSegments data).any (fun seg => seg.data.take 3 == ['P', 'I', 'D'])) = true ∧
    ∃ pm, hl7Parse data = Except.ok pm ∧
      (plookup pm.segments "PID").isSome = true ∧
      ∀ raw raw', extractPatientData pm raw = extractPatientData pm raw' := by
  have hsplit : splitSegments data = (splitSingleLine data.data).map String.mk := by
    unfold splitSegments
    rw [if_neg (by rw [hnl]; exact Bool.false_ne_true)]
  unfold firstMatchIsPid at hfm
  cases hms : findMatches data.data with
  | nil => rw [hms] at hfm; cases hfm
  | cons i rest =>
    rw [hms] at hfm
    have hms' : findMatchesAux data.data (data.data.length + 1) 0 = i :: rest := hms
    obtain ⟨-, hpat, fuel', hrest⟩ := findMatchesAux_sound data.data _ _ _ _ hms'
    have hge : ∀ m ∈ rest, i + 5 ≤ m := by
      intro m hm
      rw [hrest] at hm
      exact findMatchesAux_mem_ge data.data fuel' (i + 5) m hm
    have hpre := pid5At_drop_succ hfm
    obtain ⟨chunk, hmem, htake⟩ := buildChunks_pid_chunk data.data i rest hpre hge
    have hchunkmem : chunk ∈ splitSingleLine data.data := by
      unfold splitSingleLine
      rw [hms]
      unfold buildChunks
      exact List.mem_append_right _ hmem
    have hlinemem : String.mk chunk ∈ splitSegments data := by
      rw [hsplit]
      exact List.mem_map_of_mem String.mk hchunkmem
    have hkey : segKey (String.mk chunk) = "PID" := by
      unfold segKey
      rw [show (String.mk chunk).data = chunk from rfl, htake]
    have hA : ((splitSegments data).any
        (fun seg => seg.data.take 3 == ['P', 'I', 'D'])) = true := by
      rw [List.any_eq_true]
      refine ⟨String.mk chunk, hlinemem, ?_⟩
      rw [show (String.mk chunk).data = chunk from rfl, htake]
      rfl
    refine ⟨hA, ?_⟩
    have hocc : ((splitSegments data).filter
        (fun l => segKey l == "PID")).map parseSegment ≠ [] := by
      have hmemf : String.mk chunk ∈ (splitSegments data).filter
          (fun l => segKey l == "PID") :=
        List.mem_filter.mpr ⟨hlinemem, by rw [hkey]; rfl⟩
      intro h0
      rw [List.map_eq_nil_iff] at h0
      rw [h0] at hmemf
      cases hmemf
    have hlook : (plookup (buildSegments (splitSegments data)) "PID").isSome = true := by
      unfold buildSegments
      rw [buildSegments_loop]
      exact segShape_isSome_of_ne_nil hocc
    unfold hl7Parse
    rw [if_neg (by rw [hv]; exact fun hc => Bool.noConfusion hc)]
    cases hsp : splitSegments data with
    | nil =>
      rw [hsp] at hlinemem
      cases hlinemem
    | cons first restl =>
      refine ⟨_, rfl, ?_, ?_⟩
      · rw [show (ParsedMessage.mk (extractMessageType first)
          (buildSegments (first :: restl))).segments
            = buildSegments (first :: restl) from rfl, ← hsp]
        exact hlook
      · intro raw raw'
        have hlook2 : (plookup (buildSegments (first :: restl)) "PID").isSome = true := by
          rw [← hsp]
          exact hlook
        obtain ⟨e, he⟩ := Option.isSome_iff_exists.mp hlook2
        unfold extractPatientData
        rw [he]

/-- Concrete single-line message whose first boundary match is `|PID|`, for the
C5 witness. -/
def c5Data : String := "MSH|^~\\&|a1|PID|1|P001||Doe^John|||M"

/-- C5 witness: the theorem applied to a concrete single-line message with the
PID embedded in the MSH span. -/
theorem c5_embedded_pid_single_line_witness :
    ((splitSegments c5Data).any
      (fun seg => seg.data.take 3 == ['P', 'I', 'D'])) = true ∧
    ∃ pm, hl7Parse c5Data = Except.ok pm ∧
      (plookup pm.segments "PID").isSome = true ∧
      ∀ raw raw', extractPatientData pm raw = extractPatientData pm raw' :=
  c5_embedded_pid_single_line c5Data rfl rfl rfl
